import Mathlib

/-
Verification of the linear dimension renderer (ezdxf/render/dimension.py)
and the entity database (ezdxf/database.py).

Embedding conventions:
- Floating point numbers are embedded as exact rationals.
- The geometry of ConstructionRay and ConstructionLine is planar, matching
  the 2D construction tools of ezdxf.algebra; points are pairs of rationals.
- An angle given in degrees is embedded by its direction vector, the pair
  (cos angle, sin angle); theorems that quantify over angles carry the
  hypothesis that this pair is a unit vector.  The identities
  cos (a + 90) = -sin a and sin (a + 90) = cos a turn the direction of
  angle + 90 into Vec2.orthogonal of the direction of the angle.
- The square root of a rational is exact only for perfect squares, so
  magnitude and normalization return Option values; none models both a
  zero length error of the source and a value that has no exact rational
  representation.
-/

namespace Ezdxf

/-- Planar point or vector with exact rational coordinates. -/
structure Vec2 where
  x : ℚ
  y : ℚ
deriving DecidableEq, Repr

instance : Add Vec2 := ⟨fun a b => ⟨a.x + b.x, a.y + b.y⟩⟩

instance : Sub Vec2 := ⟨fun a b => ⟨a.x - b.x, a.y - b.y⟩⟩

instance : Neg Vec2 := ⟨fun a => ⟨-a.x, -a.y⟩⟩

instance : SMul ℚ Vec2 := ⟨fun q v => ⟨q * v.x, q * v.y⟩⟩

instance : Zero Vec2 := ⟨⟨0, 0⟩⟩

/-- Squared Euclidean length; the square of Vector.magnitude. -/
def Vec2.quadrance (v : Vec2) : ℚ := v.x ^ 2 + v.y ^ 2

/-- Cross product z component of two planar vectors. -/
def cross2 (a b : Vec2) : ℚ := a.x * b.y - a.y * b.x

/-- Dot product of two planar vectors. -/
def dot2 (a b : Vec2) : ℚ := a.x * b.x + a.y * b.y

/-- Vector.orthogonal (counter clockwise): rotation by 90 degrees. -/
def Vec2.orthogonal (v : Vec2) : Vec2 := ⟨-v.y, v.x⟩

/-- Vector.lerp with the default factor 0.5: midpoint of two points. -/
def Vec2.lerp (a b : Vec2) : Vec2 := a + (1 / 2 : ℚ) • (b - a)

/-- Exact rational square root: some r when 0 le q, r * r = q and 0 le r;
none otherwise.  Embeds the real square root restricted to rationals with
a rational root. -/
def ratSqrt (q : ℚ) : Option ℚ :=
  let sn : ℕ := Nat.sqrt q.num.toNat
  let sd : ℕ := Nat.sqrt q.den
  if 0 ≤ q.num ∧ (sn * sn : ℤ) = q.num ∧ sd * sd = q.den then
    some ((sn : ℚ) / (sd : ℚ))
  else none

/-- Vector.magnitude: Euclidean length, exact when representable. -/
def Vec2.magnitude (v : Vec2) : Option ℚ := ratSqrt v.quadrance

/-- Vector.normalize(length): the unit direction scaled by the requested
length.  Returns none for the zero vector (the source raises there) and
for lengths without an exact rational representation. -/
def Vec2.normalizeLen (v : Vec2) (len : ℚ) : Option Vec2 :=
  match v.magnitude with
  | none => none
  | some m => if m = 0 then none else some ((len / m) • v)

/-- Modelled from the spec: ezdxf.algebra.ConstructionRay is not under src.
An infinite line given by a placement point and a direction vector; the
direction embeds the angle of the source as (cos angle, sin angle). -/
structure CRay where
  p : Vec2
  d : Vec2
deriving DecidableEq, Repr

/-- Modelled from the spec: ray ray intersection solves the two parametric
line equations; parallel directions (vanishing cross product) have no
solution and the source raises a geometry error, embedded as none. -/
def CRay.intersect (r1 r2 : CRay) : Option Vec2 :=
  let den := cross2 r1.d r2.d
  if den = 0 then none
  else some (r1.p + (cross2 (r2.p - r1.p) r2.d / den) • r1.d)

/-- Modelled from the spec: ezdxf.algebra.ConstructionLine is not under
src.  A finite line between two endpoints. -/
structure CLine where
  s : Vec2
  e : Vec2
deriving DecidableEq, Repr

/-- Direction vector of a finite line. -/
def CLine.dir (l : CLine) : Vec2 := l.e - l.s

/-- Modelled from the spec: finite line intersection solves the same
parametric equations as the rays but accepts only intersection points
whose parameters fall inside both segments; parallel lines yield none. -/
def CLine.intersect (l m : CLine) : Option Vec2 :=
  let d1 := l.dir
  let d2 := m.dir
  let den := cross2 d1 d2
  if den = 0 then none
  else
    let t := cross2 (m.s - l.s) d2 / den
    let u := cross2 (m.s - l.s) d1 / den
    if 0 ≤ t ∧ t ≤ 1 ∧ 0 ≤ u ∧ u ≤ 1 then some (l.s + t • d1) else none

/-- Membership of a point in a closed segment, by its parameter. -/
def onSegment (l : CLine) (p : Vec2) : Prop :=
  ∃ t : ℚ, 0 ≤ t ∧ t ≤ 1 ∧ p = l.s + t • l.dir

/-- Membership of a point in the infinite carrier line of a segment. -/
def onLine (l : CLine) (p : Vec2) : Prop :=
  ∃ t : ℚ, p = l.s + t • l.dir

/-- Modelled from the spec: deduplication and sorting of intersection
points uses exact point equality and a total deterministic order, the
lexicographic order on coordinates. -/
def vecLt (a b : Vec2) : Prop := a.x < b.x ∨ (a.x = b.x ∧ a.y < b.y)

instance (a b : Vec2) : Decidable (vecLt a b) := by unfold vecLt; infer_instance

/-- Insertion of a point into a strictly ascending list, skipping
duplicates; one step of the sorted set construction of the source. -/
def insSorted (p : Vec2) : List Vec2 → List Vec2
  | [] => [p]
  | q :: qs =>
    if p = q then q :: qs
    else if vecLt p q then p :: q :: qs
    else q :: insSorted p qs

/-- Embeds sorted(set(points)) of the source: the distinct members in
ascending lexicographic order. -/
def sortedDedup (l : List Vec2) : List Vec2 := l.foldr insSorted []

/-- Rectangular bounding region of placed text, stored by its four corner
points (dimension.py lines 562-576). -/
structure TextBox where
  center : Vec2
  ll : Vec2
  lr : Vec2
  ur : Vec2
  ul : Vec2
deriving DecidableEq, Repr

/-- TextBox construction (lines 563-572): the half width vector is
from_deg_angle(angle, width / 2 + gap) = (width / 2 + gap) u for the
direction u of the angle, and the half height vector is
from_deg_angle(angle + 90, height / 2 + gap) = (height / 2 + gap) times
Vec2.orthogonal u; the corners are lower left, lower right, upper right
and upper left. -/
def TextBox.make (center : Vec2) (width height : ℚ) (u : Vec2) (gap : ℚ) : TextBox :=
  let w2 := (width / 2 + gap) • u
  let h2 := (height / 2 + gap) • u.orthogonal
  ⟨center, center - w2 - h2, center + w2 - h2, center + w2 + h2, center - w2 + h2⟩

/-- TextBox.border_lines (lines 578-585). -/
def TextBox.border_lines (tb : TextBox) : List CLine :=
  [⟨tb.ll, tb.lr⟩, ⟨tb.lr, tb.ur⟩, ⟨tb.ur, tb.ul⟩, ⟨tb.ul, tb.ll⟩]

/-- TextBox.intersect (lines 587-602): intersect the line with all four
border lines, collect the hits into a set and return them sorted. -/
def TextBox.intersect (tb : TextBox) (line : CLine) : List Vec2 :=
  sortedDedup (tb.border_lines.filterMap (fun b => line.intersect b))

/-- The border edge of a text box by index: bottom, right, top, left. -/
def TextBox.borderEdge (tb : TextBox) : Fin 4 → CLine
  | 0 => ⟨tb.ll, tb.lr⟩
  | 1 => ⟨tb.lr, tb.ur⟩
  | 2 => ⟨tb.ur, tb.ul⟩
  | 3 => ⟨tb.ul, tb.ll⟩

/-- The linear part of the transform into the frame of a text box. -/
def linMap (u v : Vec2) : Vec2 := ⟨dot2 v u, dot2 v u.orthogonal⟩

/-- Coordinates of a point in the frame of a text box constructed at the
center c with direction u. -/
def toLocal (c u p : Vec2) : Vec2 := linMap u (p - c)

/-- Image of a finite line under a point transform. -/
def lineMap (f : Vec2 → Vec2) (l : CLine) : CLine := ⟨f l.s, f l.e⟩

/-- Membership in the closed axis aligned rectangle with half extents a
and b around the origin. -/
def inRect (a b : ℚ) (p : Vec2) : Prop :=
  -a ≤ p.x ∧ p.x ≤ a ∧ -b ≤ p.y ∧ p.y ≤ b

/-- Strict membership in the open axis aligned rectangle. -/
def strictInRect (a b : ℚ) (p : Vec2) : Prop :=
  -a < p.x ∧ p.x < a ∧ -b < p.y ∧ p.y < b

/-- The closed region covered by a text box constructed from center,
width, height, direction and gap: described through the coordinates in
the frame of the box. -/
def inTextBoxRegion (c : Vec2) (w h : ℚ) (u : Vec2) (gap : ℚ) (p : Vec2) : Prop :=
  inRect (w / 2 + gap) (h / 2 + gap) (toLocal c u p)

/-- The open region covered by a text box. -/
def strictlyInTextBoxRegion (c : Vec2) (w h : ℚ) (u : Vec2) (gap : ℚ) (p : Vec2) : Prop :=
  strictInRect (w / 2 + gap) (h / 2 + gap) (toLocal c u p)

/-- The axis aligned text box with half extents a and b around the
origin: the image of any text box in its own frame. -/
def rectBox (a b : ℚ) : TextBox :=
  ⟨⟨0, 0⟩, ⟨-a, -b⟩, ⟨a, -b⟩, ⟨a, b⟩, ⟨-a, b⟩⟩

/-- Decimal digit characters of a natural number, most significant first. -/
def natDigits (n : ℕ) : List Char := Nat.toDigits 10 n

/-- Fixed point rendering of the nonnegative integer n understood as the
value n times 10 to the power minus dec. -/
def renderFixed (n : ℕ) (dec : ℕ) : String :=
  let ip := n / 10 ^ dec
  let fp := n % 10 ^ dec
  if dec = 0 then ⟨natDigits ip⟩
  else
    let fds := natDigits fp
    ⟨natDigits ip ++ ('.' :: (List.replicate (dec - fds.length) '0' ++ fds))⟩

/-- Floor of a rational, computed on the raw numerator and denominator. -/
def ratFloor (q : ℚ) : ℤ := Int.fdiv q.num q.den

/-- Rounding to the nearest integer, ties up; agrees with round. -/
def ratRound (q : ℚ) : ℤ := ratFloor (q + 1 / 2)

/-- Embeds the Python fixed point format specification with dec decimal
places: the value is rounded to dec decimals, ties embedded as round half
up, and rendered with a sign, the integer digits and exactly dec
fractional digits. -/
def formatFixed (v : ℚ) (dec : ℕ) : String :=
  if v < 0 then "-" ++ renderFixed (ratRound ((-v) * 10 ^ dec)).toNat dec
  else renderFixed (ratRound (v * 10 ^ dec)).toNat dec

/-- Modelled from the spec: ezdxf.tools.suppress_zeros is not under src.
With the leading flag a leading zero digit before the decimal point is
removed; with the pending flag trailing fractional zeros and then a
trailing decimal point are removed; with both flags unset the text is
returned unchanged. -/
def suppress_zeros (s : String) (leading pending : Bool) : String :=
  let l1 := s.data
  let l2 :=
    if leading then
      match l1 with
      | '0' :: '.' :: rest => '.' :: rest
      | _ => l1
    else l1
  let l3 :=
    if pending && l2.contains '.' then
      let r := l2.reverse.dropWhile (fun c => c = '0')
      let r2 :=
        match r with
        | '.' :: rest => rest
        | _ => r
      r2.reverse
    else l2
  ⟨l3⟩

/-- Modelled from the spec: ezdxf.tools.xround is not under src; rounding
of the value to the nearest multiple of the rounding unit. -/
def xround (value unit : ℚ) : ℚ :=
  if unit = 0 then value else ((ratRound (value / unit) : ℤ) : ℚ) * unit

/-- Splits a character list at the first occurrence of the placeholder
token of dimpost; none when the token does not occur. -/
def splitToken : List Char → Option (List Char × List Char)
  | [] => none
  | '<' :: '>' :: rest => some ([], rest)
  | c :: rest => (splitToken rest).map (fun ab => (c :: ab.1, ab.2))

/-- Replacement of the decimal point by the configured separator. -/
def replaceDot (s : String) (sep : Char) : String :=
  ⟨s.data.map (fun c => if c = '.' then sep else c)⟩

/-- format_text (dimension.py lines 534-559) with the raisedec parameter
fixed to its default False, the only value used in this module; none
embeds the DXFValueError raised for a dimpost template without the
placeholder token. -/
def format_text (value : ℚ) (dimrnd : Option ℚ) (dimdec : Option ℕ) (dimzin : ℕ)
    (dimdsep : Char) (dimpost : String) : Option String :=
  let value1 :=
    match dimrnd with
    | none => value
    | some r => xround value r
  let dimzin1 :=
    match dimdec with
    | none => dimzin ||| 8
    | some _ => dimzin
  let text1 :=
    match dimdec with
    | none => formatFixed value1 6
    | some d => formatFixed value1 d
  let leading := decide (dimzin1 &&& 4 ≠ 0)
  let pending := decide (dimzin1 &&& 8 ≠ 0)
  let text2 := suppress_zeros text1 leading pending
  let text3 := if dimdsep = '.' then text2 else replaceDot text2 dimdsep
  if dimpost = "" then some text3
  else
    match splitToken dimpost.data with
    | some ab => some ⟨ab.1 ++ text3.data ++ ab.2⟩
    | none => none

/-- Format variables pulled from the resolved dimension style
(lines 123-129). -/
structure FormatStyle where
  dimrnd : Option ℚ
  dimdec : Option ℕ
  dimzin : ℕ
  dimdsep : Char
  dimpost : String
deriving DecidableEq, Repr

/-- DimensionBase.format_text (lines 123-129). -/
def DimStyle.format_text (st : FormatStyle) (value : ℚ) : Option String :=
  Ezdxf.format_text value st.dimrnd st.dimdec st.dimzin st.dimdsep st.dimpost

/-- DimensionBase.text_override (lines 114-121). -/
def text_override (st : FormatStyle) (text : String) (measurement : ℚ) : Option String :=
  if text = " " then some ""
  else if text = "" ∨ text = "<>" then DimStyle.format_text st measurement
  else some text

/-- The five unimplemented renderer methods of DimensionRenderer
(lines 518-531). -/
inductive StubRenderer where
  | angular
  | diameter
  | radius
  | angular3p
  | ordinate
deriving DecidableEq, Repr

/-- Errors raised by DimensionRenderer.dispatch and the stub renderers. -/
inductive DimRenderError where
  | notImplemented (which : StubRenderer)
  | invalidDimType (dimType : ℤ)
deriving DecidableEq, Repr

/-- DimensionRenderer.dispatch (lines 490-509): selects the renderer by
the integer dimension type; ok () embeds the call of the implemented
linear renderer, the errors embed the raise statements of the stub
renderers (lines 518-531) and of the unknown type branch (line 509). -/
def dispatch (dimType : ℤ) : Except DimRenderError Unit :=
  if dimType = 0 ∨ dimType = 1 then Except.ok ()
  else if dimType = 2 then Except.error (DimRenderError.notImplemented StubRenderer.angular)
  else if dimType = 3 then Except.error (DimRenderError.notImplemented StubRenderer.diameter)
  else if dimType = 4 then Except.error (DimRenderError.notImplemented StubRenderer.radius)
  else if dimType = 5 then Except.error (DimRenderError.notImplemented StubRenderer.angular3p)
  else if dimType = 6 then Except.error (DimRenderError.notImplemented StubRenderer.ordinate)
  else Except.error (DimRenderError.invalidDimType dimType)

/-- Python bool() coercion of a numeric dimension variable. -/
def pyBool (q : ℚ) : Bool := decide (q ≠ 0)

/-- Numeric value of a Bool used as a scale factor, as Python arithmetic
does with True and False. -/
def boolScale (b : Bool) : ℚ := if b then 1 else 0

/-- Extension line style variables as resolved by DimensionBase
(lines 86-89). -/
structure ExtLineStyle where
  ext_line_extension : ℚ
  ext_line_offset : ℚ
  ext_line_fixed : Bool
  ext_line_length : Bool
deriving DecidableEq, Repr

/-- DimensionBase style resolution for extension lines (lines 86-89);
note that line 89 wraps the DIMEXLEN length itself in bool(). -/
def resolveExtLineStyle (dimexe dimexo : ℚ) (dimexfix : Bool) (dimexlen : ℚ) :
    ExtLineStyle :=
  ⟨dimexe, dimexo, dimexfix, pyBool dimexlen⟩

/-- LinearDimension.extension_line_points (lines 341-358).  The scale by
the Bool valued ext_line_length follows the Python arithmetic on bool. -/
def extension_line_points (st : ExtLineStyle) (s e : Vec2) : Option (Vec2 × Vec2) :=
  match (e - s).normalizeLen 1 with
  | none => none
  | some dir =>
    let s1 :=
      if st.ext_line_fixed then e - boolScale st.ext_line_length • dir
      else s + st.ext_line_offset • dir
    some (s1, e + st.ext_line_extension • dir)

/-- Arrow configuration; the registry query has_extension_line is external
static data and is embedded as a predicate parameter. -/
structure ArrowsInfo where
  arrow1 : Option String
  arrow2 : Option String
  hasExtensionLine : String → Bool

/-- Configuration read by add_dimension_line. -/
structure DimLineCfg where
  dim_line_extension : Bool
  suppress_dim1_line : Bool
  suppress_dim2_line : Bool
  arrows : ArrowsInfo

/-- The extension vector of the dimension line (lines 307-308): the unit
direction scaled by the Bool valued dim_line_extension (line 73 wraps the
DIMDLE length in bool()).  When the flag is False the source multiplies
the unit direction by zero; the embedding produces the zero vector there
without demanding an exactly representable magnitude, and keeps the zero
length error of normalize. -/
def dimLineExtVec (flag : Bool) (v : Vec2) : Option Vec2 :=
  if v.quadrance = 0 then none
  else if flag then v.normalizeLen 1 else some 0

/-- Adjusted endpoints and text box crossing points of the dimension line
(lines 300-331): each endpoint is pushed outward by the extension vector
when its arrow is absent or has its own extension line, then the adjusted
line is tested against the text box. -/
def dimLineParts (cfg : DimLineCfg) (tb : Option TextBox) (s e : Vec2) :
    Option (Vec2 × Vec2 × List Vec2) :=
  match dimLineExtVec cfg.dim_line_extension (e - s) with
  | none => none
  | some ext =>
    let s1 :=
      if (match cfg.arrows.arrow1 with
          | none => true
          | some n => cfg.arrows.hasExtensionLine n) then s - ext else s
    let e1 :=
      if (match cfg.arrows.arrow2 with
          | none => true
          | some n => cfg.arrows.hasExtensionLine n) then e + ext else e
    let pts :=
      match tb with
      | none => []
      | some b => b.intersect ⟨s1, e1⟩
    some (s1, e1, pts)

/-- The order helper of add_dimension_line (lines 301-305); the comparison
of the two nonnegative distances from start is embedded by comparing the
squared distances, which agrees with the magnitude comparison of the
source. -/
def orderByDist (s a b : Vec2) : Vec2 × Vec2 :=
  if (s - a).quadrance < (s - b).quadrance then (a, b) else (b, a)

/-- LinearDimension.add_dimension_line (lines 300-339) reduced to the
emitted line segments; color, linetype and lineweight attributes are not
modelled.  The source appends start and end to the intersection point
list before indexing the first two entries, which leaves exactly the two
intersection points; the embedding takes them directly. -/
def add_dimension_line (cfg : DimLineCfg) (tb : Option TextBox) (s e : Vec2) :
    Option (List CLine) :=
  match dimLineParts cfg tb s e with
  | none => none
  | some (s1, e1, pts) =>
    some
      (match pts with
       | [a, b] =>
         let pq := orderByDist s1 a b
         (if cfg.suppress_dim1_line then [] else [⟨s1, pq.1⟩]) ++
           (if cfg.suppress_dim2_line then [] else [⟨pq.2, e1⟩])
       | _ => [⟨s1, e1⟩])

/-- Style variables read by the linear dimension layout, as resolved by
DimensionBase (lines 38-96). -/
structure LinearStyle where
  dimlfac : ℚ
  text_height : ℚ
  text_width_factor : ℚ
  text_gap : ℚ
  text_halign : ℕ
  text_valign : ℕ
  text_movement_rule : ℕ
  force_text_inside : Bool
  arrow_size : ℚ
  fmt : FormatStyle
deriving DecidableEq, Repr

/-- Attributes of the dimension entity read and written by the linear
layout.  Angles are embedded by their direction vectors. -/
structure DimEntity where
  defpoint : Vec2
  defpoint2 : Vec2
  defpoint3 : Vec2
  text_midpoint : Option Vec2
  text_rotation : Option Vec2
  user_location_override : Bool
  text : String
  angle_dir : Vec2
deriving DecidableEq, Repr

/-- DimensionBase.text_width (lines 98-100). -/
def text_width (st : LinearStyle) (text : String) : ℚ :=
  (text.length : ℚ) * (st.text_height * st.text_width_factor)

/-- LinearDimension.vertical_factor (lines 424-432). -/
def vertical_factor (st : LinearStyle) : ℚ :=
  if st.text_valign = 0 then 0 else if st.text_valign = 4 then -1 else 1

/-- LinearDimension.text_vertical_distance (lines 434-439). -/
def text_vertical_distance (st : LinearStyle) : ℚ :=
  (st.text_height / 2 + st.text_gap) * vertical_factor st

/-- Direction of the rendered text (lines 200-206): the text_rotation
attribute when present, else the dimension line direction, rotated by a
further 90 degrees for the halign codes 3 and 4. -/
def textDir (st : LinearStyle) (ent : DimEntity) : Vec2 :=
  match ent.text_rotation with
  | some d => d
  | none =>
    if st.text_halign = 3 ∨ st.text_halign = 4 then ent.angle_dir.orthogonal
    else ent.angle_dir

/-- The automatic text location before the perpendicular lift
(lines 462-476): the midpoint of the dimension line, moved along it for
the halign codes 1 and 2, or above and aligned with an extension line for
the codes 3 and 4. -/
def auto_text_location (st : LinearStyle) (s e : Vec2) (text_w : ℚ) : Option Vec2 :=
  let offset := st.text_gap + st.arrow_size + text_w / 2
  if st.text_halign = 1 then ((e - s).normalizeLen offset).map (fun v => s + v)
  else if st.text_halign = 2 then ((s - e).normalizeLen offset).map (fun v => e + v)
  else if st.text_halign = 3 ∨ st.text_halign = 4 then
    let dist := st.text_gap + st.text_height / 2
    ((s - e).normalizeLen dist).map (fun v =>
      let voff := vertical_factor st • v
      if st.text_halign = 3 then s + voff else e + voff)
  else some (s.lerp e)

/-- LinearDimension.get_text_location (lines 441-486) together with its
write of the computed midpoint into the entity (line 478); returns the
lifted text location and the possibly updated entity.  The text_outside
parameter of the source is unused by its body and is dropped. -/
def get_text_location (st : LinearStyle) (ent : DimEntity) (s e : Vec2) (text_w : ℚ) :
    Option (Vec2 × DimEntity) :=
  if ent.user_location_override then
    match ent.text_midpoint with
    | none => none
    | some tl =>
      if st.text_movement_rule = 0 then
        ((e - s).orthogonal.normalizeLen (text_vertical_distance st)).map
          (fun ortho => (tl + ortho, ent))
      else some (tl, ent)
  else
    match auto_text_location st s e text_w with
    | none => none
    | some tl =>
      let ent1 := { ent with text_midpoint := some tl }
      let vdist :=
        if st.text_halign = 0 ∨ st.text_halign = 1 ∨ st.text_halign = 2 then
          text_vertical_distance st
        else st.text_gap + st.arrow_size + text_w / 2
      ((e - s).orthogonal.normalizeLen vdist).map (fun ortho => (tl + ortho, ent1))

/-- The layout state computed by LinearDimension (lines 190-246). -/
structure LinearState where
  dim_line_start : Vec2
  dim_line_end : Vec2
  measurement : ℚ
  text : String
  dim_text_width : Option ℚ
  required_text_space : Option ℚ
  text_outside : Bool
  arrows_outside : Bool
  text_location : Option Vec2
  text_box : Option TextBox
  entity : DimEntity
deriving DecidableEq, Repr

/-- The placement point of the dimension line ray (lines 214-218): the
user text midpoint under a user location override with movement rule 0,
else defpoint. -/
def dimLineRayOrigin (st : LinearStyle) (ent : DimEntity) : Option Vec2 :=
  if ent.user_location_override ∧ st.text_movement_rule = 0 then ent.text_midpoint
  else some ent.defpoint

/-- The constructor phase of LinearDimension (lines 191-246): build the
two extension rays at angle + 90 and the dimension line ray at the
dimension angle through the origin picked by dimLineRayOrigin, intersect
them into the dimension line endpoints, rewrite defpoint, measure,
resolve the text, decide inside or outside placement for text and
arrows, and place the text with its box.  none embeds every raising path
and every value without an exact rational representation. -/
def LinearDimension.init (st : LinearStyle) (ent : DimEntity) : Option LinearState := do
  let u := ent.angle_dir
  let extDir := u.orthogonal
  let ext1_ray : CRay := ⟨ent.defpoint2, extDir⟩
  let ext2_ray : CRay := ⟨ent.defpoint3, extDir⟩
  let origin ← dimLineRayOrigin st ent
  let dim_line_ray : CRay := ⟨origin, u⟩
  let s ← dim_line_ray.intersect ext1_ray
  let e ← dim_line_ray.intersect ext2_ray
  let ent1 := { ent with defpoint := s }
  let m ← ratSqrt (e - s).quadrance
  let txt ← text_override st.fmt ent.text (m * st.dimlfac)
  let arrowsOutside := decide (2 * st.arrow_size + st.text_gap > m)
  if txt = "" then
    some
      { dim_line_start := s, dim_line_end := e, measurement := m, text := txt,
        dim_text_width := none, required_text_space := none, text_outside := false,
        arrows_outside := arrowsOutside, text_location := none, text_box := none,
        entity := ent1 }
  else
    let w := text_width st txt
    let required := w + 2 * (st.arrow_size + st.text_gap)
    let outside := if st.force_text_inside then false else decide (required > m)
    let loc_ent ← get_text_location st ent1 s e w
    let tb := TextBox.make loc_ent.1 w st.text_height (textDir st ent)
      (st.text_gap * (99 / 100))
    some
      { dim_line_start := s, dim_line_end := e, measurement := m, text := txt,
        dim_text_width := some w, required_text_space := some required,
        text_outside := outside, arrows_outside := arrowsOutside,
        text_location := some loc_ent.1, text_box := some tb,
        entity := loc_ent.2 }

/-- LinearDimension.defpoints_to_wcs (lines 284-292): map the stored
definition points to world coordinates and the text midpoint to object
coordinates.  The coordinate transforms are abstract parameters, since
the UCS component is not under src. -/
def defpoints_to_wcs (wcs ocs : Vec2 → Vec2) (ent : DimEntity) : DimEntity :=
  { ent with
    defpoint := wcs ent.defpoint
    defpoint2 := wcs ent.defpoint2
    defpoint3 := wcs ent.defpoint3
    text_midpoint := ent.text_midpoint.map ocs }

/-- Entity attribute effect of LinearDimension.render (lines 248-292):
the geometry emission into the block is modelled separately by
add_dimension_line; the rendered entity keeps the defpoint rewritten at
line 222, the text midpoint possibly written at line 478, and finally the
coordinate transformation of line 282. -/
def renderEntityEffects (wcs ocs : Vec2 → Vec2) (st : LinearStyle) (ent : DimEntity) :
    Option (LinearState × DimEntity) :=
  (LinearDimension.init st ent).map (fun ls => (ls, defpoints_to_wcs wcs ocs ls.entity))

/-- Modelled from the spec in part: a stored tag list is reduced to the
data the database logic reads, the optional handle carried by the tags
(ExtendedTags is not under src) and an opaque payload. -/
structure TagsModel where
  handle : Option ℕ
  payload : ℕ
deriving DecidableEq, Repr

/-- The entity database (database.py lines 15-95): an association list
from handles to tag lists plus the handle generator state.  Modelled from
the spec in part: the HandleGenerator (not under src) emits the
increasing sequence of naturals from its state. -/
structure EntityDB where
  database : List (ℕ × TagsModel)
  nextHandle : ℕ
deriving DecidableEq, Repr

/-- Keys of the database. -/
def dbKeys (db : EntityDB) : List ℕ := db.database.map Prod.fst

/-- Dictionary lookup, EntityDB.get (lines 40-44). -/
def dbGet : List (ℕ × TagsModel) → ℕ → Option TagsModel
  | [], _ => none
  | kv :: rest, h => if kv.1 = h then some kv.2 else dbGet rest h

/-- Dictionary assignment, the setitem of line 46-47: replaces the entry
under an existing key, else appends a new entry. -/
def dbSet (l : List (ℕ × TagsModel)) (h : ℕ) (t : TagsModel) : List (ℕ × TagsModel) :=
  if h ∈ l.map Prod.fst then l.map (fun kv => if kv.1 = h then (h, t) else kv)
  else l ++ [(h, t)]

/-- The handle drawing loop of EntityDB.get_unique_handle (lines 91-95):
draw the next handle from the increasing generator until one is not a key
of the database. -/
def firstFreeHandle (keys : List ℕ) (seed : ℕ) : ℕ :=
  if h : seed ∈ keys then firstFreeHandle keys (seed + 1) else seed
termination_by (keys.filter (fun k => decide (seed ≤ k))).length
decreasing_by
  induction keys with
  | nil => simp at h
  | cons a ks ih =>
    have mono : (ks.filter (fun k => decide (seed + 1 ≤ k))).length ≤
        (ks.filter (fun k => decide (seed ≤ k))).length :=
      (List.monotone_filter_right ks (fun k hk => by
        simp only [decide_eq_true_eq] at hk ⊢
        omega)).length_le
    rcases List.mem_cons.mp h with ha | ha
    · subst ha
      have h1 : ¬ (decide (seed + 1 ≤ seed) = true) := by simp
      have h2 : decide (seed ≤ seed) = true := by simp
      rw [List.filter_cons, List.filter_cons, if_neg h1, if_pos h2, List.length_cons]
      omega
    · have ihh := ih ha
      rw [List.filter_cons, List.filter_cons]
      by_cases h1 : seed + 1 ≤ a
      · rw [if_pos (by simpa using h1),
          if_pos (by simp only [decide_eq_true_eq]; omega),
          List.length_cons, List.length_cons]
        omega
      · rw [if_neg (by simpa using h1)]
        by_cases h2 : seed ≤ a
        · rw [if_pos (by simpa using h2), List.length_cons]
          omega
        · rw [if_neg (by simpa using h2)]
          exact ihh

/-- EntityDB.get_unique_handle (lines 91-95): returns the first generated
handle that is not a database key, together with the advanced generator
state. -/
def EntityDB.get_unique_handle (db : EntityDB) : ℕ × EntityDB :=
  let h := firstFreeHandle (dbKeys db) db.nextHandle
  (h, { db with nextHandle := h + 1 })

/-- EntityDB.add_tags (lines 73-82): a tag list without a handle gets a
fresh unique handle inserted into the tags; the tags are then stored
under the handle.  The legacy handle code distinction of line 78 concerns
only the tag encoding and is not modelled. -/
def EntityDB.add_tags (db : EntityDB) (tags : TagsModel) : ℕ × EntityDB :=
  match tags.handle with
  | some h => (h, { db with database := dbSet db.database h tags })
  | none =>
    let hdb := db.get_unique_handle
    let tags1 := { tags with handle := some hdb.1 }
    (hdb.1, { hdb.2 with database := dbSet hdb.2.database hdb.1 tags1 })

/-- Concrete format style: no rounding, zero decimals, no zero
suppression, point separator, plain placeholder template. -/
def stdFmt : FormatStyle := ⟨none, some 0, 0, '.', "<>"⟩

/-- Concrete style for scenario witnesses. -/
def stdStyle : LinearStyle :=
  { dimlfac := 1, text_height := 1, text_width_factor := 1, text_gap := 0,
    text_halign := 0, text_valign := 0, text_movement_rule := 0,
    force_text_inside := false, arrow_size := 1, fmt := stdFmt }

/-- The scenario style with measurement factor two. -/
def stdStyleF2 : LinearStyle := { stdStyle with dimlfac := 2 }

/-- The scenario entity of the specification: defpoint (0,0),
defpoint2 (0,0), defpoint3 (10,0), angle 0; the text attribute holds the
suppression sentinel. -/
def stdEntSuppressed : DimEntity :=
  { defpoint := ⟨0, 0⟩, defpoint2 := ⟨0, 0⟩, defpoint3 := ⟨10, 0⟩, text_midpoint := none,
    text_rotation := none, user_location_override := false, text := " ",
    angle_dir := ⟨1, 0⟩ }

/-- The scenario entity with the measured text shown. -/
def stdEnt : DimEntity := { stdEntSuppressed with text := "" }

/-- Layout state computed for the suppressed text scenario. -/
def stdStateSuppressed : LinearState :=
  { dim_line_start := ⟨0, 0⟩, dim_line_end := ⟨10, 0⟩, measurement := 10, text := "",
    dim_text_width := none, required_text_space := none, text_outside := false,
    arrows_outside := false, text_location := none, text_box := none,
    entity := stdEntSuppressed }

/-- Layout state computed for the shown text scenario. -/
def stdState : LinearState :=
  { dim_line_start := ⟨0, 0⟩, dim_line_end := ⟨10, 0⟩, measurement := 10, text := "10",
    dim_text_width := some 2, required_text_space := some 4, text_outside := false,
    arrows_outside := false, text_location := some ⟨5, 0⟩,
    text_box := some ⟨⟨5, 0⟩, ⟨4, -(1 / 2)⟩, ⟨6, -(1 / 2)⟩, ⟨6, 1 / 2⟩, ⟨4, 1 / 2⟩⟩,
    entity := { stdEnt with text_midpoint := some ⟨5, 0⟩ } }

/-- A world transform for witnesses: translation by (1,1). -/
def shiftW : Vec2 → Vec2 := fun p => p + ⟨1, 1⟩

/-- An object transform for witnesses: translation by (2,2). -/
def shiftO : Vec2 → Vec2 := fun p => p + ⟨2, 2⟩

/-- The scenario entity after rendering under the two translations. -/
def stdEntFinal : DimEntity :=
  { defpoint := ⟨1, 1⟩, defpoint2 := ⟨1, 1⟩, defpoint3 := ⟨11, 1⟩,
    text_midpoint := some ⟨7, 2⟩, text_rotation := none, user_location_override := false,
    text := "", angle_dir := ⟨1, 0⟩ }

/-- A dimension line configuration for witnesses. -/
def c5Cfg : DimLineCfg :=
  { dim_line_extension := false, suppress_dim1_line := false, suppress_dim2_line := false,
    arrows := { arrow1 := none, arrow2 := none, hasExtensionLine := fun _ => false } }

/-- A text box for witnesses, centered on the dimension line. -/
def c5Box : TextBox := TextBox.make ⟨5, 0⟩ 2 2 ⟨1, 0⟩ 0

theorem Vec2.add_def (a b : Vec2) : a + b = ⟨a.x + b.x, a.y + b.y⟩ := rfl

theorem Vec2.sub_def (a b : Vec2) : a - b = ⟨a.x - b.x, a.y - b.y⟩ := rfl

theorem Vec2.smul_def (q : ℚ) (v : Vec2) : q • v = ⟨q * v.x, q * v.y⟩ := rfl

theorem Vec2.zero_def : (0 : Vec2) = ⟨0, 0⟩ := rfl

theorem Vec2.ext_iff {a b : Vec2} : a = b ↔ a.x = b.x ∧ a.y = b.y := by
  cases a; cases b; simp

theorem ratSqrt_spec {q m : ℚ} (h : ratSqrt q = some m) : 0 ≤ m ∧ m ^ 2 = q := by
  unfold ratSqrt at h
  set sn : ℕ := Nat.sqrt q.num.toNat with hsn
  set sd : ℕ := Nat.sqrt q.den with hsd
  by_cases hc : 0 ≤ q.num ∧ (sn * sn : ℤ) = q.num ∧ sd * sd = q.den
  · rw [if_pos hc] at h
    obtain ⟨hnum, hn, hd⟩ := hc
    have hm : ((sn : ℚ) / (sd : ℚ)) = m := Option.some.inj h
    subst hm
    have hdenpos := q.den_pos
    have hsd0 : sd ≠ 0 := by
      intro h0
      rw [h0, Nat.zero_mul] at hd
      omega
    constructor
    · positivity
    · have hden : ((sd : ℚ)) ^ 2 = (q.den : ℚ) := by
        have h1 : ((sd * sd : ℕ) : ℚ) = (q.den : ℚ) := by exact_mod_cast congrArg (fun n : ℕ => (n : ℚ)) hd
        push_cast at h1
        nlinarith [h1]
      have hnum' : ((sn : ℚ)) ^ 2 = (q.num : ℚ) := by
        have h1 : ((sn * sn : ℤ) : ℚ) = ((q.num : ℤ) : ℚ) := by exact_mod_cast congrArg (fun n : ℤ => (n : ℚ)) hn
        push_cast at h1
        nlinarith [h1]
      have h2 : ((sn : ℚ) / (sd : ℚ)) ^ 2 = (q.num : ℚ) / (q.den : ℚ) := by
        rw [div_pow, hden, hnum']
      rw [h2, Rat.num_div_den]
  · rw [if_neg hc] at h
    exact Option.noConfusion h

theorem Vec2.quadrance_nonneg (v : Vec2) : 0 ≤ v.quadrance := by
  unfold Vec2.quadrance; positivity

theorem onLine_of_onSegment {l : CLine} {p : Vec2} (h : onSegment l p) : onLine l p := by
  obtain ⟨t, _, _, ht⟩ := h
  exact ⟨t, ht⟩

theorem CLine.intersect_spec {l m : CLine} {p : Vec2} (h : l.intersect m = some p) :
    cross2 l.dir m.dir ≠ 0 ∧
    ∃ t u : ℚ, 0 ≤ t ∧ t ≤ 1 ∧ 0 ≤ u ∧ u ≤ 1 ∧
      p = l.s + t • l.dir ∧ p = m.s + u • m.dir := by
  unfold CLine.intersect at h
  by_cases hden : cross2 l.dir m.dir = 0
  · rw [if_pos hden] at h
    exact Option.noConfusion h
  · rw [if_neg hden] at h
    refine ⟨hden, ?_⟩
    set den := cross2 l.dir m.dir with hdendef
    set t := cross2 (m.s - l.s) m.dir / den with htdef
    set u := cross2 (m.s - l.s) l.dir / den with hudef
    by_cases hrange : 0 ≤ t ∧ t ≤ 1 ∧ 0 ≤ u ∧ u ≤ 1
    · rw [if_pos hrange] at h
      obtain ⟨ht0, ht1, hu0, hu1⟩ := hrange
      have hp : p = l.s + t • l.dir := (Option.some.inj h).symm
      refine ⟨t, u, ht0, ht1, hu0, hu1, hp, ?_⟩
      rw [hp]
      set a := l.dir with ha
      set b := m.dir with hb
      set w := m.s - l.s with hw
      have hwx : w.x = m.s.x - l.s.x := by rw [hw]; rfl
      have hwy : w.y = m.s.y - l.s.y := by rw [hw]; rfl
      have hDx : cross2 w b * a.x - cross2 w a * b.x = w.x * den := by
        rw [hdendef]
        simp only [cross2]
        ring
      have hDy : cross2 w b * a.y - cross2 w a * b.y = w.y * den := by
        rw [hdendef]
        simp only [cross2]
        ring
      rw [Vec2.ext_iff]
      simp only [Vec2.add_def, Vec2.smul_def, htdef, hudef]
      constructor
      · have hx : cross2 w b / den * a.x - cross2 w a / den * b.x = w.x := by
          field_simp
          linarith [hDx]
        rw [hwx] at hx
        linarith [hx]
      · have hy : cross2 w b / den * a.y - cross2 w a / den * b.y = w.y := by
          field_simp
          linarith [hDy]
        rw [hwy] at hy
        linarith [hy]
    · rw [if_neg hrange] at h
      exact Option.noConfusion h

theorem two_lines_unique_point {l m : CLine} (hden : cross2 l.dir m.dir ≠ 0)
    {p q : Vec2} (hpl : onLine l p) (hpm : onLine m p) (hql : onLine l q)
    (hqm : onLine m q) : p = q := by
  obtain ⟨t, hpt⟩ := hpl
  obtain ⟨u, hpu⟩ := hpm
  obtain ⟨t', hqt⟩ := hql
  obtain ⟨u', hqu⟩ := hqm
  have hx1 : p.x - q.x = (t - t') * (l.dir).x := by
    rw [hpt, hqt]; simp [Vec2.add_def, Vec2.smul_def]; ring
  have hy1 : p.y - q.y = (t - t') * (l.dir).y := by
    rw [hpt, hqt]; simp [Vec2.add_def, Vec2.smul_def]; ring
  have hx2 : p.x - q.x = (u - u') * (m.dir).x := by
    rw [hpu, hqu]; simp [Vec2.add_def, Vec2.smul_def]; ring
  have hy2 : p.y - q.y = (u - u') * (m.dir).y := by
    rw [hpu, hqu]; simp [Vec2.add_def, Vec2.smul_def]; ring
  have hkey : (t - t') * cross2 l.dir m.dir = 0 := by
    have ex : (t - t') * l.dir.x = (u - u') * m.dir.x := by linarith [hx1, hx2]
    have ey : (t - t') * l.dir.y = (u - u') * m.dir.y := by linarith [hy1, hy2]
    unfold cross2
    linear_combination m.dir.y * ex - m.dir.x * ey
  have htt : t = t' := by
    rcases mul_eq_zero.mp hkey with h | h
    · linarith
    · exact absurd h hden
  rw [hpt, hqt, htt]

theorem CLine.intersect_eq_some {l m : CLine} (hden : cross2 l.dir m.dir ≠ 0)
    {t u : ℚ} (ht0 : 0 ≤ t) (ht1 : t ≤ 1) (hu0 : 0 ≤ u) (hu1 : u ≤ 1)
    (hp : l.s + t • l.dir = m.s + u • m.dir) :
    l.intersect m = some (l.s + t • l.dir) := by
  unfold CLine.intersect
  rw [if_neg hden]
  have hwt : cross2 (m.s - l.s) m.dir = t * cross2 l.dir m.dir := by
    have hms : m.s - l.s = t • l.dir - u • m.dir := by
      rw [Vec2.ext_iff] at hp ⊢
      simp only [Vec2.add_def, Vec2.smul_def, Vec2.sub_def] at hp ⊢
      constructor <;> [linarith [hp.1]; linarith [hp.2]]
    rw [hms]
    simp only [cross2, Vec2.sub_def, Vec2.smul_def]
    ring
  have hwu : cross2 (m.s - l.s) l.dir = u * cross2 l.dir m.dir := by
    have hms : m.s - l.s = t • l.dir - u • m.dir := by
      rw [Vec2.ext_iff] at hp ⊢
      simp only [Vec2.add_def, Vec2.smul_def, Vec2.sub_def] at hp ⊢
      constructor <;> [linarith [hp.1]; linarith [hp.2]]
    rw [hms]
    simp only [cross2, Vec2.sub_def, Vec2.smul_def]
    ring
  have htval : cross2 (m.s - l.s) m.dir / cross2 l.dir m.dir = t := by
    rw [hwt]; field_simp
  have huval : cross2 (m.s - l.s) l.dir / cross2 l.dir m.dir = u := by
    rw [hwu]; field_simp
  rw [htval, huval, if_pos ⟨ht0, ht1, hu0, hu1⟩]

theorem vecLt_trans {a b c : Vec2} (h1 : vecLt a b) (h2 : vecLt b c) : vecLt a c := by
  unfold vecLt at *
  rcases h1 with h1 | ⟨h1e, h1y⟩ <;> rcases h2 with h2 | ⟨h2e, h2y⟩
  · exact Or.inl (lt_trans h1 h2)
  · exact Or.inl (h2e ▸ h1)
  · exact Or.inl (h1e ▸ h2)
  · exact Or.inr ⟨h1e.trans h2e, lt_trans h1y h2y⟩

theorem vecLt_ne {a b : Vec2} (h : vecLt a b) : a ≠ b := by
  intro he
  subst he
  unfold vecLt at h
  rcases h with h | ⟨_, h⟩ <;> exact lt_irrefl _ h

theorem vecLt_total {a b : Vec2} (h : a ≠ b) : vecLt a b ∨ vecLt b a := by
  unfold vecLt
  rcases lt_trichotomy a.x b.x with hx | hx | hx
  · exact Or.inl (Or.inl hx)
  · rcases lt_trichotomy a.y b.y with hy | hy | hy
    · exact Or.inl (Or.inr ⟨hx, hy⟩)
    · exact absurd (Vec2.ext_iff.mpr ⟨hx, hy⟩) h
    · exact Or.inr (Or.inr ⟨hx.symm, hy⟩)
  · exact Or.inr (Or.inl hx)

theorem mem_insSorted {r p : Vec2} {l : List Vec2} :
    r ∈ insSorted p l ↔ r = p ∨ r ∈ l := by
  induction l with
  | nil => simp [insSorted]
  | cons q qs ih =>
    unfold insSorted
    by_cases h1 : p = q
    · rw [if_pos h1]
      subst h1
      simp only [List.mem_cons]
      tauto
    · rw [if_neg h1]
      by_cases h2 : vecLt p q
      · rw [if_pos h2]
        simp only [List.mem_cons]
      · rw [if_neg h2]
        simp only [List.mem_cons, ih]
        tauto

theorem pairwise_insSorted {p : Vec2} {l : List Vec2} (h : l.Pairwise vecLt) :
    (insSorted p l).Pairwise vecLt := by
  induction l with
  | nil => simp [insSorted]
  | cons q qs ih =>
    rw [List.pairwise_cons] at h
    obtain ⟨hq, hqs⟩ := h
    unfold insSorted
    by_cases h1 : p = q
    · rw [if_pos h1]
      exact List.pairwise_cons.mpr ⟨hq, hqs⟩
    · rw [if_neg h1]
      by_cases h2 : vecLt p q
      · rw [if_pos h2]
        refine List.pairwise_cons.mpr ⟨?_, List.pairwise_cons.mpr ⟨hq, hqs⟩⟩
        intro r hr
        rcases List.mem_cons.mp hr with h | h
        · exact h ▸ h2
        · exact vecLt_trans h2 (hq r h)
      · rw [if_neg h2]
        refine List.pairwise_cons.mpr ⟨?_, ih hqs⟩
        intro r hr
        rcases mem_insSorted.mp hr with h | h
        · subst h
          rcases vecLt_total h1 with h | h
          · exact absurd h h2
          · exact h
        · exact hq r h

theorem mem_sortedDedup {r : Vec2} {l : List Vec2} :
    r ∈ sortedDedup l ↔ r ∈ l := by
  induction l with
  | nil => simp [sortedDedup]
  | cons q qs ih =>
    show r ∈ insSorted q (sortedDedup qs) ↔ _
    rw [mem_insSorted, ih]
    simp [List.mem_cons]

theorem pairwise_sortedDedup (l : List Vec2) : (sortedDedup l).Pairwise vecLt := by
  induction l with
  | nil => simp [sortedDedup]
  | cons q qs ih => exact pairwise_insSorted ih

theorem nodup_of_pairwise_vecLt {l : List Vec2} (h : l.Pairwise vecLt) : l.Nodup :=
  h.imp (fun hab => vecLt_ne hab)

theorem exists_three_distinct_of_length {l : List Vec2} (hp : l.Pairwise vecLt)
    (hl : 3 ≤ l.length) :
    ∃ a b c, a ∈ l ∧ b ∈ l ∧ c ∈ l ∧ a ≠ b ∧ a ≠ c ∧ b ≠ c := by
  cases l with
  | nil => simp at hl
  | cons a l1 =>
    cases l1 with
    | nil => simp at hl
    | cons b l2 =>
      cases l2 with
      | nil => simp at hl
      | cons c rest =>
        rw [List.pairwise_cons] at hp
        obtain ⟨ha, hp⟩ := hp
        rw [List.pairwise_cons] at hp
        obtain ⟨hb, _⟩ := hp
        refine ⟨a, b, c, by simp, by simp, by simp, ?_, ?_, ?_⟩
        · exact vecLt_ne (ha b (by simp))
        · exact vecLt_ne (ha c (by simp))
        · exact vecLt_ne (hb c (by simp))

theorem two_le_length_of_two_mem {l : List Vec2} {p q : Vec2} (hp : p ∈ l)
    (hq : q ∈ l) (hne : p ≠ q) : 2 ≤ l.length := by
  cases l with
  | nil => simp at hp
  | cons a l1 =>
    cases l1 with
    | nil =>
      simp only [List.mem_singleton] at hp hq
      exact absurd (hp.trans hq.symm) hne
    | cons b l2 => simp [List.length]

theorem eq_pair_of_length_two {l : List Vec2} (h : l.length = 2) :
    ∃ a b, l = [a, b] := by
  cases l with
  | nil => simp at h
  | cons a l1 =>
    cases l1 with
    | nil => simp at h
    | cons b l2 =>
      cases l2 with
      | nil => exact ⟨a, b, rfl⟩
      | cons c rest => simp [List.length] at h

theorem filter_ge_length_lt {keys : List ℕ} {seed : ℕ} (h : seed ∈ keys) :
    (keys.filter (fun k => decide (seed + 1 ≤ k))).length <
      (keys.filter (fun k => decide (seed ≤ k))).length := by
  induction keys with
  | nil => simp at h
  | cons a ks ih =>
    have mono : (ks.filter (fun k => decide (seed + 1 ≤ k))).length ≤
        (ks.filter (fun k => decide (seed ≤ k))).length :=
      (List.monotone_filter_right ks (fun k hk => by
        simp only [decide_eq_true_eq] at hk ⊢
        omega)).length_le
    rcases List.mem_cons.mp h with ha | ha
    · subst ha
      have h1 : ¬ (decide (seed + 1 ≤ seed) = true) := by simp
      have h2 : decide (seed ≤ seed) = true := by simp
      rw [List.filter_cons, List.filter_cons, if_neg h1, if_pos h2, List.length_cons]
      omega
    · have ihh := ih ha
      rw [List.filter_cons, List.filter_cons]
      by_cases h1 : seed + 1 ≤ a
      · rw [if_pos (by simpa using h1),
          if_pos (by simp only [decide_eq_true_eq]; omega),
          List.length_cons, List.length_cons]
        omega
      · rw [if_neg (by simpa using h1)]
        by_cases h2 : seed ≤ a
        · rw [if_pos (by simpa using h2), List.length_cons]
          omega
        · rw [if_neg (by simpa using h2)]
          exact ihh

theorem firstFreeHandle_not_mem (keys : List ℕ) (seed : ℕ) :
    firstFreeHandle keys seed ∉ keys := by
  have H : ∀ n seed, (keys.filter (fun k => decide (seed ≤ k))).length = n →
      firstFreeHandle keys seed ∉ keys := by
    intro n
    induction n using Nat.strong_induction_on with
    | _ n ih =>
      intro seed hn
      rw [firstFreeHandle]
      split
      · next h => exact ih _ (hn ▸ filter_ge_length_lt h) _ rfl
      · next h => exact h
  exact H _ seed rfl

theorem dbGet_dbSet_fresh {l : List (ℕ × TagsModel)} {h : ℕ} (t : TagsModel)
    (hfresh : h ∉ l.map Prod.fst) {k : ℕ} (hk : k ∈ l.map Prod.fst) :
    dbGet (dbSet l h t) k = dbGet l k := by
  unfold dbSet
  rw [if_neg hfresh]
  induction l with
  | nil => simp at hk
  | cons kv rest ih =>
    simp only [List.map_cons, List.mem_cons] at hk hfresh
    push_neg at hfresh
    unfold dbGet
    by_cases hkv : kv.1 = k
    · rw [if_pos hkv, List.cons_append]
      show (if kv.1 = k then some kv.2 else dbGet (rest ++ [(h, t)]) k) = some kv.2
      rw [if_pos hkv]
    · rw [if_neg hkv, List.cons_append]
      show (if kv.1 = k then some kv.2 else dbGet (rest ++ [(h, t)]) k) = dbGet rest k
      rw [if_neg hkv]
      rcases hk with hk | hk
      · exact absurd hk.symm hkv
      · exact ih hfresh.2 hk

theorem ratFloor_eq (q : ℚ) : ratFloor q = ⌊q⌋ := by
  unfold ratFloor
  rw [Rat.floor_def, Int.fdiv_eq_ediv _ (by positivity)]

theorem ratRound_eq (q : ℚ) : ratRound q = round q := by
  unfold ratRound
  rw [ratFloor_eq, round_eq]

/-- C2: DimensionRenderer.dispatch routes the integer type codes 0 and 1
to the linear renderer; each of the codes 2, 3, 4, 5 and 6 raises a
distinct, reportable not implemented error naming its stub renderer; and
every code outside 0 to 6 raises an invalid value error. -/
theorem C2_dispatch_routing :
    (dispatch 0 = Except.ok () ∧ dispatch 1 = Except.ok ()) ∧
    (dispatch 2 = Except.error (DimRenderError.notImplemented StubRenderer.angular) ∧
     dispatch 3 = Except.error (DimRenderError.notImplemented StubRenderer.diameter) ∧
     dispatch 4 = Except.error (DimRenderError.notImplemented StubRenderer.radius) ∧
     dispatch 5 = Except.error (DimRenderError.notImplemented StubRenderer.angular3p) ∧
     dispatch 6 = Except.error (DimRenderError.notImplemented StubRenderer.ordinate)) ∧
    ∀ t : ℤ, ¬ (0 ≤ t ∧ t ≤ 6) →
      dispatch t = Except.error (DimRenderError.invalidDimType t) := by
  refine ⟨⟨rfl, rfl⟩, ⟨rfl, rfl, rfl, rfl, rfl⟩, ?_⟩
  intro t ht
  unfold dispatch
  rw [if_neg (by omega), if_neg (by omega), if_neg (by omega), if_neg (by omega),
    if_neg (by omega), if_neg (by omega)]

/-- C2 witness: the invalid value branch at the concrete code 7. -/
theorem C2_dispatch_routing_witness :
    dispatch 7 = Except.error (DimRenderError.invalidDimType 7) :=
  C2_dispatch_routing.2.2 7 (by decide)

/-- C4: resolving the display text yields the empty string for the blank
sentinel regardless of formatting options, the formatted measurement for
the empty string and for the placeholder token, and any other attribute
string verbatim. -/
theorem C4_text_override_cases (st : FormatStyle) (m : ℚ) (text : String)
    (h : text ≠ " " ∧ text ≠ "" ∧ text ≠ "<>") :
    text_override st " " m = some "" ∧
    text_override st "" m = DimStyle.format_text st m ∧
    text_override st "<>" m = DimStyle.format_text st m ∧
    text_override st text m = some text := by
  refine ⟨rfl, rfl, rfl, ?_⟩
  unfold text_override
  rw [if_neg h.1, if_neg (not_or.mpr ⟨h.2.1, h.2.2⟩)]

/-- C4 witness: the cases at a concrete style, measurement and override
string. -/
theorem C4_text_override_cases_witness :
    text_override stdFmt " " 10 = some "" ∧
    text_override stdFmt "" 10 = DimStyle.format_text stdFmt 10 ∧
    text_override stdFmt "<>" 10 = DimStyle.format_text stdFmt 10 ∧
    text_override stdFmt "5m" 10 = some "5m" :=
  C4_text_override_cases stdFmt 10 "5m" (by with_unfolding_all decide)

/-- C7: format_text on the value 3.14159 with two decimals and the comma
separator yields 3,14 under the default template, and 3,14mm under the
template with the mm suffix. -/
theorem C7_format_text_examples :
    format_text (314159 / 100000) none (some 2) 0 ',' "<>" = some "3,14" ∧
    format_text (314159 / 100000) none (some 2) 0 ',' "<>mm" = some "3,14mm" := by
  constructor
  · with_unfolding_all rfl
  · with_unfolding_all rfl

/-- C8: evaluation at the failing input.  With the fixed length mode set
and dimexlen five, the extension line start lands one unit back from the
dimension line end instead of five units, because the style resolution at
line 89 coerces the dimexlen length to a Bool. -/
theorem C8_ext_line_fixed_length_eval :
    extension_line_points (resolveExtLineStyle 0 0 true 5) ⟨0, 0⟩ ⟨0, 10⟩ =
      some (⟨0, 9⟩, ⟨0, 10⟩) ∧
    ((⟨0, 9⟩ : Vec2) ≠ ⟨0, 5⟩) ∧
    extension_line_points (resolveExtLineStyle 0 0 false 5) ⟨0, 0⟩ ⟨0, 10⟩ =
      some (⟨0, 0⟩, ⟨0, 10⟩) := by
  refine ⟨by with_unfolding_all rfl, by with_unfolding_all decide, by with_unfolding_all rfl⟩

/-- C10: get_unique_handle returns a handle that is no key of the
database, and add_tags on a tag list without a handle stores it under
such a fresh handle, changing no existing entry. -/
theorem C10_unique_handle_no_overwrite (db : EntityDB) (tags : TagsModel)
    (hno : tags.handle = none) :
    db.get_unique_handle.1 ∉ dbKeys db ∧
    ∀ k ∈ dbKeys db, dbGet (db.add_tags tags).2.database k = dbGet db.database k := by
  have hfresh : firstFreeHandle (dbKeys db) db.nextHandle ∉ dbKeys db :=
    firstFreeHandle_not_mem _ _
  constructor
  · exact hfresh
  · intro k hk
    unfold EntityDB.add_tags
    simp only [hno]
    exact dbGet_dbSet_fresh _ hfresh hk

/-- C10 witness: a concrete database with two entries whose generator
seed collides with an existing handle. -/
theorem C10_unique_handle_no_overwrite_witness :
    (EntityDB.mk [(0, ⟨some 0, 5⟩), (1, ⟨some 1, 6⟩)] 0).get_unique_handle.1 ∉
      dbKeys (EntityDB.mk [(0, ⟨some 0, 5⟩), (1, ⟨some 1, 6⟩)] 0) ∧
    ∀ k ∈ dbKeys (EntityDB.mk [(0, ⟨some 0, 5⟩), (1, ⟨some 1, 6⟩)] 0),
      dbGet ((EntityDB.mk [(0, ⟨some 0, 5⟩), (1, ⟨some 1, 6⟩)] 0).add_tags ⟨none, 7⟩).2.database
          k =
        dbGet (EntityDB.mk [(0, ⟨some 0, 5⟩), (1, ⟨some 1, 6⟩)] 0).database k :=
  C10_unique_handle_no_overwrite (EntityDB.mk [(0, ⟨some 0, 5⟩), (1, ⟨some 1, 6⟩)] 0)
    ⟨none, 7⟩ rfl

/-- C1 (amended): for every linear dimension the layout computes, the
stored measurement is nonnegative and is exactly the Euclidean distance
between the computed endpoints (its square is the quadrance of their
difference); the configured measurement factor dimlfac multiplies the
value handed to text resolution, not the stored measurement. -/
theorem C1_measurement_is_distance (st : LinearStyle) (ent : DimEntity) (ls : LinearState)
    (h : LinearDimension.init st ent = some ls) :
    0 ≤ ls.measurement ∧
    ls.measurement ^ 2 = (ls.dim_line_end - ls.dim_line_start).quadrance ∧
    text_override st.fmt ent.text (ls.measurement * st.dimlfac) = some ls.text := by
  unfold LinearDimension.init at h
  simp only [Option.bind_eq_bind, Option.bind_eq_some, Option.some.injEq] at h
  obtain ⟨origin, horigin, s, hs, e, he, m, hm, txt, htxt, h⟩ := h
  obtain ⟨hm0, hmsq⟩ := ratSqrt_spec hm
  by_cases hc : txt = ""
  · rw [if_pos hc] at h
    have hR := Option.some.inj h
    subst hR
    exact ⟨hm0, hmsq, htxt⟩
  · rw [if_neg hc] at h
    simp only [Option.bind_eq_bind, Option.bind_eq_some, Option.some.injEq] at h
    obtain ⟨loc_ent, hloc, h⟩ := h
    subst h
    exact ⟨hm0, hmsq, htxt⟩

/-- C1 witness: the scenario defpoint (0,0,0), defpoint2 (0,0,0),
defpoint3 (10,0,0), angle 0 with the suppressed text sentinel gives
measurement 10 between the endpoints (0,0) and (10,0). -/
theorem C1_measurement_is_distance_witness :
    (0 ≤ stdStateSuppressed.measurement ∧
     stdStateSuppressed.measurement ^ 2 =
       (stdStateSuppressed.dim_line_end - stdStateSuppressed.dim_line_start).quadrance ∧
     text_override stdStyle.fmt stdEntSuppressed.text
       (stdStateSuppressed.measurement * stdStyle.dimlfac) = some stdStateSuppressed.text) ∧
    stdStateSuppressed.measurement = 10 ∧
    stdStateSuppressed.dim_line_start = ⟨0, 0⟩ ∧
    stdStateSuppressed.dim_line_end = ⟨10, 0⟩ :=
  ⟨C1_measurement_is_distance stdStyle stdEntSuppressed stdStateSuppressed
      (by with_unfolding_all rfl),
   rfl, rfl, rfl⟩

/-- C1 counterexample: at the scenario with measurement factor two, the
computed endpoints are (0,0) and (10,0), whose Euclidean distance is 10,
and the stored measurement is 10 as well, not distance times factor
(which is 20): the claimed equality fails at this input. -/
theorem C1_measurement_factor_counterexample :
    (LinearDimension.init stdStyleF2 stdEntSuppressed).map
        (fun ls => (ls.dim_line_start, ls.dim_line_end, ls.measurement)) =
      some (⟨0, 0⟩, ⟨10, 0⟩, 10) ∧
    ratSqrt ((⟨10, 0⟩ - ⟨0, 0⟩ : Vec2).quadrance) = some 10 ∧
    stdStyleF2.dimlfac = 2 ∧
    ¬ ((10 : ℚ) = 10 * stdStyleF2.dimlfac) := by
  refine ⟨by with_unfolding_all rfl, by with_unfolding_all rfl, rfl, ?_⟩
  show ¬ ((10 : ℚ) = 10 * 2)
  norm_num

/-- C3: with nonempty display text, the text is placed outside the
extension lines exactly when the required space, the text width plus
twice the sum of arrow size and text gap, exceeds the measurement and the
force text inside flag is unset; independently, the arrows are placed
outside exactly when twice the arrow size plus the text gap exceeds the
measurement. -/
theorem C3_inside_outside_decisions (st : LinearStyle) (ent : DimEntity)
    (ls : LinearState) (h : LinearDimension.init st ent = some ls)
    (htext : ls.text ≠ "") :
    (ls.text_outside = true ↔
       text_width st ls.text + 2 * (st.arrow_size + st.text_gap) > ls.measurement ∧
       st.force_text_inside = false) ∧
    (ls.arrows_outside = true ↔ 2 * st.arrow_size + st.text_gap > ls.measurement) := by
  unfold LinearDimension.init at h
  simp only [Option.bind_eq_bind, Option.bind_eq_some, Option.some.injEq] at h
  obtain ⟨origin, horigin, s, hs, e, he, m, hm, txt, htxt, h⟩ := h
  by_cases hc : txt = ""
  · rw [if_pos hc] at h
    have hR := Option.some.inj h
    subst hR
    exact absurd hc htext
  · rw [if_neg hc] at h
    simp only [Option.bind_eq_bind, Option.bind_eq_some, Option.some.injEq] at h
    obtain ⟨loc_ent, hloc, h⟩ := h
    subst h
    constructor
    · show (if st.force_text_inside then false
            else decide (text_width st txt + 2 * (st.arrow_size + st.text_gap) > m)) = true ↔ _
      by_cases hf : st.force_text_inside
      · simp [hf]
      · simp [hf]
    · show decide (2 * st.arrow_size + st.text_gap > m) = true ↔ _
      simp

/-- C3 witness: the scenario state with text 10, required space 4,
measurement 10, so text and arrows stay inside. -/
theorem C3_inside_outside_decisions_witness :
    ((stdState.text_outside = true ↔
       text_width stdStyle stdState.text +
           2 * (stdStyle.arrow_size + stdStyle.text_gap) > stdState.measurement ∧
       stdStyle.force_text_inside = false) ∧
     (stdState.arrows_outside = true ↔
       2 * stdStyle.arrow_size + stdStyle.text_gap > stdState.measurement)) :=
  C3_inside_outside_decisions stdStyle stdEnt stdState (by with_unfolding_all rfl)
    (by with_unfolding_all decide)

theorem get_text_location_entity (st : LinearStyle) (ent1 : DimEntity) (s e : Vec2)
    (w : ℚ) {le : Vec2 × DimEntity} (h : get_text_location st ent1 s e w = some le) :
    (ent1.user_location_override = true → le.2 = ent1) ∧
    (ent1.user_location_override = false →
      ∃ tl, auto_text_location st s e w = some tl ∧
        le.2 = { ent1 with text_midpoint := some tl }) := by
  unfold get_text_location at h
  by_cases huo : ent1.user_location_override = true
  · rw [if_pos huo] at h
    refine ⟨fun _ => ?_, fun hfalse => absurd huo (by rw [hfalse]; simp)⟩
    rcases htm : ent1.text_midpoint with _ | tl
    · rw [htm] at h
      exact Option.noConfusion h
    · simp only [htm] at h
      by_cases hmr : st.text_movement_rule = 0
      · rw [if_pos hmr, Option.map_eq_some'] at h
        obtain ⟨o, _, hp⟩ := h
        rw [← hp]
      · rw [if_neg hmr] at h
        rw [← Option.some.inj h]
  · rw [if_neg huo] at h
    refine ⟨fun htrue => absurd htrue huo, fun _ => ?_⟩
    rcases hauto : auto_text_location st s e w with _ | tl
    · rw [hauto] at h
      exact Option.noConfusion h
    · simp only [hauto, Option.map_eq_some'] at h
      obtain ⟨o, _, hp⟩ := h
      exact ⟨tl, rfl, by rw [← hp]⟩

/-- C9: after a successful linear render the entity carries defpoint
rewritten to the computed dimension line start (and finally transformed
to world coordinates); under a user location override the text midpoint
is never replaced (it is only transformed to object coordinates), and
without an override and with nonempty text it is written with the
automatically computed text location. -/
theorem C9_entity_mutation (wcs ocs : Vec2 → Vec2) (st : LinearStyle) (ent : DimEntity)
    (ls : LinearState) (entF : DimEntity)
    (h : renderEntityEffects wcs ocs st ent = some (ls, entF)) :
    ls.entity.defpoint = ls.dim_line_start ∧
    entF.defpoint = wcs ls.dim_line_start ∧
    (ent.user_location_override = true →
      ls.entity.text_midpoint = ent.text_midpoint ∧
      entF.text_midpoint = ent.text_midpoint.map ocs) ∧
    (ent.user_location_override = false → ls.text ≠ "" →
      ls.entity.text_midpoint =
        auto_text_location st ls.dim_line_start ls.dim_line_end (text_width st ls.text) ∧
      entF.text_midpoint = ls.entity.text_midpoint.map ocs) := by
  unfold renderEntityEffects at h
  rw [Option.map_eq_some'] at h
  obtain ⟨ls0, hinit, heq⟩ := h
  rw [Prod.mk.injEq] at heq
  obtain ⟨hls, hentF⟩ := heq
  subst hls
  subst hentF
  unfold LinearDimension.init at hinit
  simp only [Option.bind_eq_bind, Option.bind_eq_some, Option.some.injEq] at hinit
  obtain ⟨origin, horigin, s, hs, e, he, m, hm, txt, htxt, hinit⟩ := hinit
  by_cases hc : txt = ""
  · rw [if_pos hc] at hinit
    have hR := Option.some.inj hinit
    subst hR
    exact ⟨rfl, rfl, fun _ => ⟨rfl, rfl⟩, fun _ hne => absurd hc hne⟩
  · rw [if_neg hc] at hinit
    simp only [Option.bind_eq_bind, Option.bind_eq_some, Option.some.injEq] at hinit
    obtain ⟨loc_ent, hloc, hR⟩ := hinit
    subst hR
    have hgl := get_text_location_entity st { ent with defpoint := s } s e
      (text_width st txt) hloc
    by_cases huo : ent.user_location_override = true
    · have hent2 := hgl.1 huo
      refine ⟨?_, ?_, fun _ => ⟨?_, ?_⟩, fun hfalse _ => absurd huo (by rw [hfalse]; simp)⟩
      · show loc_ent.2.defpoint = s
        rw [hent2]
      · show wcs loc_ent.2.defpoint = wcs s
        rw [hent2]
      · show loc_ent.2.text_midpoint = ent.text_midpoint
        rw [hent2]
      · show loc_ent.2.text_midpoint.map ocs = ent.text_midpoint.map ocs
        rw [hent2]
    · have huo2 : ent.user_location_override = false := by
        revert huo
        cases ent.user_location_override <;> simp
      obtain ⟨tl, hauto, hent2⟩ := hgl.2 huo2
      refine ⟨?_, ?_, fun htrue => absurd htrue huo, fun _ _ => ⟨?_, ?_⟩⟩
      · show loc_ent.2.defpoint = s
        rw [hent2]
      · show wcs loc_ent.2.defpoint = wcs s
        rw [hent2]
      · show loc_ent.2.text_midpoint = auto_text_location st s e (text_width st txt)
        rw [hent2, hauto]
      · show loc_ent.2.text_midpoint.map ocs = loc_ent.2.text_midpoint.map ocs
        rfl

/-- C9 witness: the scenario without a user override and with text shown,
rendered under two distinct translations as world and object transforms. -/
theorem C9_entity_mutation_witness :
    renderEntityEffects shiftW shiftO stdStyle stdEnt = some (stdState, stdEntFinal) ∧
    (stdState.entity.defpoint = stdState.dim_line_start ∧
     stdEntFinal.defpoint = shiftW stdState.dim_line_start ∧
     (stdEnt.user_location_override = true →
       stdState.entity.text_midpoint = stdEnt.text_midpoint ∧
       stdEntFinal.text_midpoint = stdEnt.text_midpoint.map shiftO) ∧
     (stdEnt.user_location_override = false → stdState.text ≠ "" →
       stdState.entity.text_midpoint =
         auto_text_location stdStyle stdState.dim_line_start stdState.dim_line_end
           (text_width stdStyle stdState.text) ∧
       stdEntFinal.text_midpoint = stdState.entity.text_midpoint.map shiftO)) :=
  ⟨by with_unfolding_all rfl,
   C9_entity_mutation shiftW shiftO stdStyle stdEnt stdState stdEntFinal
     (by with_unfolding_all rfl)⟩

/-- C5: the dimension line is emitted split in two exactly when the text
box border crosses it in two points: with two crossing points and no
suppression flags the emitted segments run from the adjusted start to the
nearer crossing point and from the farther crossing point to the adjusted
end; with any other number of crossing points, or no text box, one
unbroken line from the adjusted start to the adjusted end is emitted. -/
theorem C5_dimension_line_split (cfg : DimLineCfg) (tb : Option TextBox) (s e : Vec2)
    (s1 e1 : Vec2) (pts : List Vec2) (lines : List CLine)
    (hparts : dimLineParts cfg tb s e = some (s1, e1, pts))
    (hsup1 : cfg.suppress_dim1_line = false) (hsup2 : cfg.suppress_dim2_line = false)
    (hlines : add_dimension_line cfg tb s e = some lines) :
    (pts.length = 2 → ∃ a b, pts = [a, b] ∧
      ∃ p1 p2, ((p1 = a ∧ p2 = b) ∨ (p1 = b ∧ p2 = a)) ∧
        (s1 - p1).quadrance ≤ (s1 - p2).quadrance ∧
        lines = [⟨s1, p1⟩, ⟨p2, e1⟩]) ∧
    (pts.length ≠ 2 → lines = [⟨s1, e1⟩]) := by
  unfold add_dimension_line at hlines
  rw [hparts] at hlines
  have hlines2 := Option.some.inj hlines
  constructor
  · intro hlen
    obtain ⟨a, b, hab⟩ := eq_pair_of_length_two hlen
    subst hab
    have hlines3 : lines =
        (if cfg.suppress_dim1_line = true then []
         else [CLine.mk s1 (orderByDist s1 a b).1]) ++
          (if cfg.suppress_dim2_line = true then []
           else [CLine.mk (orderByDist s1 a b).2 e1]) := hlines2.symm
    rw [hsup1, hsup2] at hlines3
    simp only [Bool.false_eq_true, if_false, List.singleton_append] at hlines3
    refine ⟨a, b, rfl, ?_⟩
    unfold orderByDist at hlines3
    by_cases hq : (s1 - a).quadrance < (s1 - b).quadrance
    · rw [if_pos hq] at hlines3
      exact ⟨a, b, Or.inl ⟨rfl, rfl⟩, le_of_lt hq, by rw [hlines3]⟩
    · rw [if_neg hq] at hlines3
      exact ⟨b, a, Or.inr ⟨rfl, rfl⟩, le_of_not_lt hq, by rw [hlines3]⟩
  · intro hlen
    rw [← hlines2]
    match pts, hlen with
    | [], _ => rfl
    | [a], _ => rfl
    | [a, b], hlen => exact absurd rfl hlen
    | a :: b :: c :: rest, _ => rfl

/-- C5 witness: a horizontal dimension line from (0,0) to (10,0) with a
text box centered at (5,0), crossed at (4,0) and (6,0); the emitted
segments run from (0,0) to (4,0) and from (6,0) to (10,0). -/
theorem C5_dimension_line_split_witness :
    ((([⟨4, 0⟩, ⟨6, 0⟩] : List Vec2).length = 2 → ∃ a b,
        ([⟨4, 0⟩, ⟨6, 0⟩] : List Vec2) = [a, b] ∧
        ∃ p1 p2, ((p1 = a ∧ p2 = b) ∨ (p1 = b ∧ p2 = a)) ∧
          ((⟨0, 0⟩ : Vec2) - p1).quadrance ≤ ((⟨0, 0⟩ : Vec2) - p2).quadrance ∧
          [CLine.mk ⟨0, 0⟩ ⟨4, 0⟩, CLine.mk ⟨6, 0⟩ ⟨10, 0⟩] = [⟨⟨0, 0⟩, p1⟩, ⟨p2, ⟨10, 0⟩⟩]) ∧
     (([⟨4, 0⟩, ⟨6, 0⟩] : List Vec2).length ≠ 2 →
        [CLine.mk ⟨0, 0⟩ ⟨4, 0⟩, CLine.mk ⟨6, 0⟩ ⟨10, 0⟩] = [⟨⟨0, 0⟩, ⟨10, 0⟩⟩])) :=
  C5_dimension_line_split c5Cfg (some c5Box) ⟨0, 0⟩ ⟨10, 0⟩ ⟨0, 0⟩ ⟨10, 0⟩
    [⟨4, 0⟩, ⟨6, 0⟩] [⟨⟨0, 0⟩, ⟨4, 0⟩⟩, ⟨⟨6, 0⟩, ⟨10, 0⟩⟩]
    (by with_unfolding_all rfl) rfl rfl (by with_unfolding_all rfl)

theorem linMap_sub (u p q : Vec2) : linMap u p - linMap u q = linMap u (p - q) := by
  rw [Vec2.ext_iff]
  simp only [linMap, dot2, Vec2.sub_def, Vec2.orthogonal]
  constructor <;> ring

theorem toLocal_sub (c u p q : Vec2) :
    toLocal c u p - toLocal c u q = linMap u (p - q) := by
  unfold toLocal
  rw [linMap_sub]
  congr 1
  rw [Vec2.ext_iff]
  simp only [Vec2.sub_def]
  constructor <;> ring

theorem toLocal_add_smul (c u : Vec2) (p : Vec2) (t : ℚ) (v : Vec2) :
    toLocal c u (p + t • v) = toLocal c u p + t • linMap u v := by
  rw [Vec2.ext_iff]
  simp only [toLocal, linMap, dot2, Vec2.add_def, Vec2.sub_def, Vec2.smul_def,
    Vec2.orthogonal]
  constructor <;> ring

theorem cross2_linMap {u : Vec2} (hu : u.x ^ 2 + u.y ^ 2 = 1) (v w : Vec2) :
    cross2 (linMap u v) (linMap u w) = cross2 v w := by
  simp only [linMap, cross2, dot2, Vec2.orthogonal]
  linear_combination (v.x * w.y - v.y * w.x) * hu

theorem linMap_injective {u : Vec2} (hu : u.x ^ 2 + u.y ^ 2 = 1) {v w : Vec2}
    (h : linMap u v = linMap u w) : v = w := by
  rw [Vec2.ext_iff] at h ⊢
  simp only [linMap, dot2, Vec2.orthogonal] at h
  obtain ⟨h1, h2⟩ := h
  constructor
  · linear_combination u.x * h1 - u.y * h2 + (w.x - v.x) * hu
  · linear_combination u.y * h1 + u.x * h2 + (w.y - v.y) * hu

theorem toLocal_injective {c u : Vec2} (hu : u.x ^ 2 + u.y ^ 2 = 1) {p q : Vec2}
    (h : toLocal c u p = toLocal c u q) : p = q := by
  have h2 := linMap_injective hu h
  rw [Vec2.ext_iff] at h2 ⊢
  simp only [Vec2.sub_def] at h2
  constructor <;> [linarith [h2.1]; linarith [h2.2]]

theorem lineMap_toLocal_dir (c u : Vec2) (l : CLine) :
    (lineMap (toLocal c u) l).dir = linMap u l.dir := by
  show toLocal c u l.e - toLocal c u l.s = _
  rw [toLocal_sub]
  rfl

theorem intersect_toLocal {c u : Vec2} (hu : u.x ^ 2 + u.y ^ 2 = 1) (l m : CLine) :
    (lineMap (toLocal c u) l).intersect (lineMap (toLocal c u) m) =
      (l.intersect m).map (toLocal c u) := by
  unfold CLine.intersect
  have hsub : (lineMap (toLocal c u) m).s - (lineMap (toLocal c u) l).s =
      linMap u (m.s - l.s) := toLocal_sub c u m.s l.s
  rw [lineMap_toLocal_dir, lineMap_toLocal_dir, hsub]
  dsimp only
  rw [cross2_linMap hu, cross2_linMap hu, cross2_linMap hu]
  by_cases hden : cross2 l.dir m.dir = 0
  · rw [if_pos hden, if_pos hden]
    rfl
  · rw [if_neg hden, if_neg hden]
    by_cases hrange : 0 ≤ cross2 (m.s - l.s) m.dir / cross2 l.dir m.dir ∧
        cross2 (m.s - l.s) m.dir / cross2 l.dir m.dir ≤ 1 ∧
        0 ≤ cross2 (m.s - l.s) l.dir / cross2 l.dir m.dir ∧
        cross2 (m.s - l.s) l.dir / cross2 l.dir m.dir ≤ 1
    · rw [if_pos hrange, if_pos hrange, Option.map_some']
      congr 1
      show toLocal c u l.s + _ • linMap u l.dir = toLocal c u (l.s + _ • l.dir)
      rw [toLocal_add_smul]
    · rw [if_neg hrange, if_neg hrange]
      rfl

theorem make_borderEdge_toLocal {c u : Vec2} (hu : u.x ^ 2 + u.y ^ 2 = 1)
    (w h gap : ℚ) (i : Fin 4) :
    lineMap (toLocal c u) ((TextBox.make c w h u gap).borderEdge i) =
      (rectBox (w / 2 + gap) (h / 2 + gap)).borderEdge i := by
  have hll : toLocal c u (TextBox.make c w h u gap).ll =
      ⟨-(w / 2 + gap), -(h / 2 + gap)⟩ := by
    rw [Vec2.ext_iff]
    simp only [TextBox.make, toLocal, linMap, dot2, Vec2.orthogonal, Vec2.add_def,
      Vec2.sub_def, Vec2.smul_def]
    constructor
    · linear_combination (-(w / 2 + gap)) * hu
    · linear_combination (-(h / 2 + gap)) * hu
  have hlr : toLocal c u (TextBox.make c w h u gap).lr =
      ⟨w / 2 + gap, -(h / 2 + gap)⟩ := by
    rw [Vec2.ext_iff]
    simp only [TextBox.make, toLocal, linMap, dot2, Vec2.orthogonal, Vec2.add_def,
      Vec2.sub_def, Vec2.smul_def]
    constructor
    · linear_combination (w / 2 + gap) * hu
    · linear_combination (-(h / 2 + gap)) * hu
  have hur : toLocal c u (TextBox.make c w h u gap).ur =
      ⟨w / 2 + gap, h / 2 + gap⟩ := by
    rw [Vec2.ext_iff]
    simp only [TextBox.make, toLocal, linMap, dot2, Vec2.orthogonal, Vec2.add_def,
      Vec2.sub_def, Vec2.smul_def]
    constructor
    · linear_combination (w / 2 + gap) * hu
    · linear_combination (h / 2 + gap) * hu
  have hul : toLocal c u (TextBox.make c w h u gap).ul =
      ⟨-(w / 2 + gap), h / 2 + gap⟩ := by
    rw [Vec2.ext_iff]
    simp only [TextBox.make, toLocal, linMap, dot2, Vec2.orthogonal, Vec2.add_def,
      Vec2.sub_def, Vec2.smul_def]
    constructor
    · linear_combination (-(w / 2 + gap)) * hu
    · linear_combination (h / 2 + gap) * hu
  fin_cases i
  · show CLine.mk (toLocal c u (TextBox.make c w h u gap).ll)
        (toLocal c u (TextBox.make c w h u gap).lr) = _
    rw [hll, hlr]
    rfl
  · show CLine.mk (toLocal c u (TextBox.make c w h u gap).lr)
        (toLocal c u (TextBox.make c w h u gap).ur) = _
    rw [hlr, hur]
    rfl
  · show CLine.mk (toLocal c u (TextBox.make c w h u gap).ur)
        (toLocal c u (TextBox.make c w h u gap).ul) = _
    rw [hur, hul]
    rfl
  · show CLine.mk (toLocal c u (TextBox.make c w h u gap).ul)
        (toLocal c u (TextBox.make c w h u gap).ll) = _
    rw [hul, hll]
    rfl

theorem cand_map_toLocal {c u : Vec2} (hu : u.x ^ 2 + u.y ^ 2 = 1) (w h gap : ℚ)
    (L : CLine) (i : Fin 4) :
    (lineMap (toLocal c u) L).intersect
        ((rectBox (w / 2 + gap) (h / 2 + gap)).borderEdge i) =
      (L.intersect ((TextBox.make c w h u gap).borderEdge i)).map (toLocal c u) := by
  rw [← make_borderEdge_toLocal hu w h gap i, intersect_toLocal hu]

theorem border_lines_eq (tb : TextBox) :
    tb.border_lines = [tb.borderEdge 0, tb.borderEdge 1, tb.borderEdge 2, tb.borderEdge 3] :=
  rfl

theorem mem_textbox_intersect {tb : TextBox} {L : CLine} {p : Vec2} :
    p ∈ tb.intersect L ↔ ∃ i : Fin 4, L.intersect (tb.borderEdge i) = some p := by
  unfold TextBox.intersect
  rw [mem_sortedDedup, List.mem_filterMap]
  constructor
  · rintro ⟨bl, hbl, hint⟩
    rw [border_lines_eq] at hbl
    simp only [List.mem_cons, List.not_mem_nil, or_false] at hbl
    rcases hbl with hbl | hbl | hbl | hbl
    · exact ⟨0, hbl ▸ hint⟩
    · exact ⟨1, hbl ▸ hint⟩
    · exact ⟨2, hbl ▸ hint⟩
    · exact ⟨3, hbl ▸ hint⟩
  · rintro ⟨i, hi⟩
    refine ⟨tb.borderEdge i, ?_, hi⟩
    rw [border_lines_eq]
    fin_cases i <;> simp

theorem cands_toLocal {c u : Vec2} (hu : u.x ^ 2 + u.y ^ 2 = 1) (w h gap : ℚ)
    (L : CLine) :
    (rectBox (w / 2 + gap) (h / 2 + gap)).border_lines.filterMap
        (fun bl => (lineMap (toLocal c u) L).intersect bl) =
      ((TextBox.make c w h u gap).border_lines.filterMap
        (fun bl => L.intersect bl)).map (toLocal c u) := by
  rw [border_lines_eq, border_lines_eq]
  simp only [List.filterMap_cons, List.filterMap_nil]
  rw [cand_map_toLocal hu w h gap L 0, cand_map_toLocal hu w h gap L 1,
    cand_map_toLocal hu w h gap L 2, cand_map_toLocal hu w h gap L 3]
  rcases L.intersect ((TextBox.make c w h u gap).borderEdge 0) with _ | p0 <;>
    rcases L.intersect ((TextBox.make c w h u gap).borderEdge 1) with _ | p1 <;>
      rcases L.intersect ((TextBox.make c w h u gap).borderEdge 2) with _ | p2 <;>
        rcases L.intersect ((TextBox.make c w h u gap).borderEdge 3) with _ | p3 <;>
          simp

theorem sortedDedup_toFinset (l : List Vec2) :
    (sortedDedup l).toFinset = l.toFinset := by
  ext p
  simp only [List.mem_toFinset]
  exact mem_sortedDedup

theorem sortedDedup_length_eq_card (l : List Vec2) :
    (sortedDedup l).length = l.toFinset.card := by
  rw [← sortedDedup_toFinset]
  exact (List.toFinset_card_of_nodup
    (nodup_of_pairwise_vecLt (pairwise_sortedDedup l))).symm

theorem intersect_length_toLocal {c u : Vec2} (hu : u.x ^ 2 + u.y ^ 2 = 1)
    (w h gap : ℚ) (L : CLine) :
    ((TextBox.make c w h u gap).intersect L).length =
      ((rectBox (w / 2 + gap) (h / 2 + gap)).intersect (lineMap (toLocal c u) L)).length := by
  unfold TextBox.intersect
  rw [sortedDedup_length_eq_card, sortedDedup_length_eq_card, cands_toLocal hu]
  have himg : (((TextBox.make c w h u gap).border_lines.filterMap
        (fun bl => L.intersect bl)).map (toLocal c u)).toFinset =
      ((TextBox.make c w h u gap).border_lines.filterMap
        (fun bl => L.intersect bl)).toFinset.image (toLocal c u) := by
    ext p
    simp [List.mem_toFinset, List.mem_map, Finset.mem_image]
  rw [himg, Finset.card_image_of_injective _ (fun p q => toLocal_injective hu)]

theorem rect_cand_spec {a b : ℚ} (ha : 0 < a) (hb : 0 < b) {L : CLine} {p : Vec2}
    {i : Fin 4} (h : L.intersect ((rectBox a b).borderEdge i) = some p) :
    (∃ t : ℚ, 0 ≤ t ∧ t ≤ 1 ∧ p = L.s + t • L.dir) ∧
    inRect a b p ∧
    ((p.y = -b ∧ L.dir.y ≠ 0) ∨ (p.y = b ∧ L.dir.y ≠ 0) ∨
     (p.x = -a ∧ L.dir.x ≠ 0) ∨ (p.x = a ∧ L.dir.x ≠ 0)) ∧
    onSegment ((rectBox a b).borderEdge i) p := by
  obtain ⟨hden, t, u0, ht0, ht1, hu0, hu1, hpl, hpm⟩ := CLine.intersect_spec h
  refine ⟨⟨t, ht0, ht1, hpl⟩, ?_, ?_, ⟨u0, hu0, hu1, hpm⟩⟩ <;> fin_cases i
  · have hpm2 := hpm
    rw [Vec2.ext_iff] at hpm2
    simp only [TextBox.borderEdge, rectBox, CLine.dir, Vec2.sub_def, Vec2.add_def,
      Vec2.smul_def] at hpm2
    obtain ⟨hpx, hpy⟩ := hpm2
    exact ⟨by nlinarith, by nlinarith, by nlinarith, by nlinarith⟩
  · have hpm2 := hpm
    rw [Vec2.ext_iff] at hpm2
    simp only [TextBox.borderEdge, rectBox, CLine.dir, Vec2.sub_def, Vec2.add_def,
      Vec2.smul_def] at hpm2
    obtain ⟨hpx, hpy⟩ := hpm2
    exact ⟨by nlinarith, by nlinarith, by nlinarith, by nlinarith⟩
  · have hpm2 := hpm
    rw [Vec2.ext_iff] at hpm2
    simp only [TextBox.borderEdge, rectBox, CLine.dir, Vec2.sub_def, Vec2.add_def,
      Vec2.smul_def] at hpm2
    obtain ⟨hpx, hpy⟩ := hpm2
    exact ⟨by nlinarith, by nlinarith, by nlinarith, by nlinarith⟩
  · have hpm2 := hpm
    rw [Vec2.ext_iff] at hpm2
    simp only [TextBox.borderEdge, rectBox, CLine.dir, Vec2.sub_def, Vec2.add_def,
      Vec2.smul_def] at hpm2
    obtain ⟨hpx, hpy⟩ := hpm2
    exact ⟨by nlinarith, by nlinarith, by nlinarith, by nlinarith⟩
  · have hpm2 := hpm
    rw [Vec2.ext_iff] at hpm2
    simp only [TextBox.borderEdge, rectBox, CLine.dir, Vec2.sub_def, Vec2.add_def,
      Vec2.smul_def] at hpm2
    obtain ⟨hpx, hpy⟩ := hpm2
    refine Or.inl ⟨by nlinarith, ?_⟩
    intro h0
    apply hden
    have h0y : L.e.y - L.s.y = 0 := by
      have h1 := h0
      simp only [CLine.dir, Vec2.sub_def] at h1
      exact h1
    simp only [TextBox.borderEdge, rectBox, CLine.dir, Vec2.sub_def, cross2]
    linear_combination (-(a * 2)) * h0y
  · have hpm2 := hpm
    rw [Vec2.ext_iff] at hpm2
    simp only [TextBox.borderEdge, rectBox, CLine.dir, Vec2.sub_def, Vec2.add_def,
      Vec2.smul_def] at hpm2
    obtain ⟨hpx, hpy⟩ := hpm2
    refine Or.inr (Or.inr (Or.inr ⟨by nlinarith, ?_⟩))
    intro h0
    apply hden
    have h0x : L.e.x - L.s.x = 0 := by
      have h1 := h0
      simp only [CLine.dir, Vec2.sub_def] at h1
      exact h1
    simp only [TextBox.borderEdge, rectBox, CLine.dir, Vec2.sub_def, cross2]
    linear_combination (b * 2) * h0x
  · have hpm2 := hpm
    rw [Vec2.ext_iff] at hpm2
    simp only [TextBox.borderEdge, rectBox, CLine.dir, Vec2.sub_def, Vec2.add_def,
      Vec2.smul_def] at hpm2
    obtain ⟨hpx, hpy⟩ := hpm2
    refine Or.inr (Or.inl ⟨by nlinarith, ?_⟩)
    intro h0
    apply hden
    have h0y : L.e.y - L.s.y = 0 := by
      have h1 := h0
      simp only [CLine.dir, Vec2.sub_def] at h1
      exact h1
    simp only [TextBox.borderEdge, rectBox, CLine.dir, Vec2.sub_def, cross2]
    linear_combination (a * 2) * h0y
  · have hpm2 := hpm
    rw [Vec2.ext_iff] at hpm2
    simp only [TextBox.borderEdge, rectBox, CLine.dir, Vec2.sub_def, Vec2.add_def,
      Vec2.smul_def] at hpm2
    obtain ⟨hpx, hpy⟩ := hpm2
    refine Or.inr (Or.inr (Or.inl ⟨by nlinarith, ?_⟩))
    intro h0
    apply hden
    have h0x : L.e.x - L.s.x = 0 := by
      have h1 := h0
      simp only [CLine.dir, Vec2.sub_def] at h1
      exact h1
    simp only [TextBox.borderEdge, rectBox, CLine.dir, Vec2.sub_def, cross2]
    linear_combination (-(b * 2)) * h0x

theorem middle_profile_contradiction {a b : ℚ} {L : CLine} {p q r : Vec2}
    {tp tq tr : ℚ}
    (hp : p = L.s + tp • L.dir) (hq : q = L.s + tq • L.dir) (hr : r = L.s + tr • L.dir)
    (h1 : tp < tq) (h2 : tq < tr)
    (hqprof : (q.y = -b ∧ L.dir.y ≠ 0) ∨ (q.y = b ∧ L.dir.y ≠ 0) ∨
              (q.x = -a ∧ L.dir.x ≠ 0) ∨ (q.x = a ∧ L.dir.x ≠ 0))
    (hpb : inRect a b p) (hrb : inRect a b r) : False := by
  have hpx : p.x = L.s.x + tp * L.dir.x := by rw [hp]; rfl
  have hpy : p.y = L.s.y + tp * L.dir.y := by rw [hp]; rfl
  have hqx : q.x = L.s.x + tq * L.dir.x := by rw [hq]; rfl
  have hqy : q.y = L.s.y + tq * L.dir.y := by rw [hq]; rfl
  have hrx : r.x = L.s.x + tr * L.dir.x := by rw [hr]; rfl
  have hry : r.y = L.s.y + tr * L.dir.y := by rw [hr]; rfl
  obtain ⟨hpb1, hpb2, hpb3, hpb4⟩ := hpb
  obtain ⟨hrb1, hrb2, hrb3, hrb4⟩ := hrb
  rcases hqprof with ⟨hgq, hd⟩ | ⟨hgq, hd⟩ | ⟨hgq, hd⟩ | ⟨hgq, hd⟩ <;>
    rcases lt_or_gt_of_ne hd with hdneg | hdpos
  · nlinarith [hry, hqy, hgq, hrb3]
  · nlinarith [hpy, hqy, hgq, hpb3]
  · nlinarith [hpy, hqy, hgq, hpb4]
  · nlinarith [hry, hqy, hgq, hrb4]
  · nlinarith [hrx, hqx, hgq, hrb1]
  · nlinarith [hpx, hqx, hgq, hpb1]
  · nlinarith [hpx, hqx, hgq, hpb2]
  · nlinarith [hrx, hqx, hgq, hrb2]

theorem rect_intersect_length_le_two {a b : ℚ} (ha : 0 < a) (hb : 0 < b) (L : CLine) :
    ((rectBox a b).intersect L).length ≤ 2 := by
  by_contra hlen
  push_neg at hlen
  have hpw : ((rectBox a b).intersect L).Pairwise vecLt := pairwise_sortedDedup _
  obtain ⟨p, q, r, hpmem, hqmem, hrmem, hpq, hpr, hqr⟩ :=
    exists_three_distinct_of_length hpw (by omega)
  rw [mem_textbox_intersect] at hpmem hqmem hrmem
  obtain ⟨ip, hip⟩ := hpmem
  obtain ⟨iq, hiq⟩ := hqmem
  obtain ⟨ir, hir⟩ := hrmem
  obtain ⟨⟨tp, _, _, hp⟩, hpbox, hpprof, _⟩ := rect_cand_spec ha hb hip
  obtain ⟨⟨tq, _, _, hq⟩, hqbox, hqprof, _⟩ := rect_cand_spec ha hb hiq
  obtain ⟨⟨tr, _, _, hr⟩, hrbox, hrprof, _⟩ := rect_cand_spec ha hb hir
  have hne1 : tp ≠ tq := fun hEq => hpq (by rw [hp, hq, hEq])
  have hne2 : tp ≠ tr := fun hEq => hpr (by rw [hp, hr, hEq])
  have hne3 : tq ≠ tr := fun hEq => hqr (by rw [hq, hr, hEq])
  rcases lt_trichotomy tp tq with h1 | h1 | h1
  · rcases lt_trichotomy tq tr with h2 | h2 | h2
    · exact middle_profile_contradiction hp hq hr h1 h2 hqprof hpbox hrbox
    · exact hne3 h2
    · rcases lt_trichotomy tp tr with h3 | h3 | h3
      · exact middle_profile_contradiction hp hr hq h3 h2 hrprof hpbox hqbox
      · exact hne2 h3
      · exact middle_profile_contradiction hr hp hq h3 h1 hpprof hrbox hqbox
  · exact hne1 h1
  · rcases lt_trichotomy tp tr with h2 | h2 | h2
    · exact middle_profile_contradiction hq hp hr h1 h2 hpprof hqbox hrbox
    · exact hne2 h2
    · rcases lt_trichotomy tq tr with h3 | h3 | h3
      · exact middle_profile_contradiction hq hr hp h3 h2 hrprof hqbox hpbox
      · exact hne3 h3
      · exact middle_profile_contradiction hr hq hp h3 h1 hqprof hrbox hpbox

theorem rect_intersect_outside {a b : ℚ} (ha : 0 < a) (hb : 0 < b) (L : CLine)
    (hout : ∀ t : ℚ, 0 ≤ t → t ≤ 1 → ¬ inRect a b (L.s + t • L.dir)) :
    (rectBox a b).intersect L = [] := by
  by_contra hne
  obtain ⟨p, hp⟩ := List.exists_mem_of_ne_nil _ hne
  rw [mem_textbox_intersect] at hp
  obtain ⟨i, hi⟩ := hp
  obtain ⟨⟨t, ht0, ht1, hpt⟩, hbox, _, _⟩ := rect_cand_spec ha hb hi
  exact hout t ht0 ht1 (hpt ▸ hbox)

theorem slab_enter {x0 dx A t0 t1 : ℚ} (hA : 0 < A) (ht : t0 < t1)
    (hin : -A < x0 + t1 * dx ∧ x0 + t1 * dx < A) :
    ∃ e : ℚ, t0 ≤ e ∧ e < t1 ∧
      ((e = t0 ∧ -A ≤ x0 + t0 * dx ∧ x0 + t0 * dx ≤ A) ∨
       (t0 < e ∧ (x0 + e * dx = A ∨ x0 + e * dx = -A) ∧ dx ≠ 0)) ∧
      ∀ t : ℚ, e ≤ t → t ≤ t1 → -A ≤ x0 + t * dx ∧ x0 + t * dx ≤ A := by
  by_cases h0 : -A ≤ x0 + t0 * dx ∧ x0 + t0 * dx ≤ A
  · refine ⟨t0, le_refl _, ht, Or.inl ⟨rfl, h0⟩, ?_⟩
    intro t hte htt1
    constructor
    · nlinarith [h0.1, hin.1]
    · nlinarith [h0.2, hin.2]
  · rcases lt_or_le (x0 + t0 * dx) (-A) with hlow | hge
    · have hdx : 0 < dx := by nlinarith [hin.1]
      have hdx0 : dx ≠ 0 := ne_of_gt hdx
      refine ⟨(-A - x0) / dx, ?_, ?_, ?_, ?_⟩
      · have hxe : x0 + ((-A - x0) / dx) * dx = -A := by field_simp
        nlinarith [hxe]
      · have hxe : x0 + ((-A - x0) / dx) * dx = -A := by field_simp
        nlinarith [hxe, hin.1]
      · have hxe : x0 + ((-A - x0) / dx) * dx = -A := by field_simp
        refine Or.inr ⟨by nlinarith [hxe], Or.inr hxe, hdx0⟩
      · intro t hte htt1
        have hxe : x0 + ((-A - x0) / dx) * dx = -A := by field_simp
        constructor
        · nlinarith [hxe]
        · nlinarith [hin.2]
    · have hhigh : A < x0 + t0 * dx := not_le.mp (fun hle => h0 ⟨hge, hle⟩)
      have hdx : dx < 0 := by nlinarith [hin.2]
      have hdx0 : dx ≠ 0 := ne_of_lt hdx
      refine ⟨(A - x0) / dx, ?_, ?_, ?_, ?_⟩
      · have hxe : x0 + ((A - x0) / dx) * dx = A := by field_simp
        nlinarith [hxe]
      · have hxe : x0 + ((A - x0) / dx) * dx = A := by field_simp
        nlinarith [hxe, hin.2]
      · have hxe : x0 + ((A - x0) / dx) * dx = A := by field_simp
        refine Or.inr ⟨by nlinarith [hxe], Or.inl hxe, hdx0⟩
      · intro t hte htt1
        have hxe : x0 + ((A - x0) / dx) * dx = A := by field_simp
        constructor
        · nlinarith [hin.1]
        · nlinarith [hxe]

theorem slab_exit {x0 dx A t0 t1 : ℚ} (hA : 0 < A) (ht : t0 < t1)
    (hin : -A < x0 + t0 * dx ∧ x0 + t0 * dx < A) :
    ∃ e : ℚ, t0 < e ∧ e ≤ t1 ∧
      ((e = t1 ∧ -A ≤ x0 + t1 * dx ∧ x0 + t1 * dx ≤ A) ∨
       (e < t1 ∧ (x0 + e * dx = A ∨ x0 + e * dx = -A) ∧ dx ≠ 0)) ∧
      ∀ t : ℚ, t0 ≤ t → t ≤ e → -A ≤ x0 + t * dx ∧ x0 + t * dx ≤ A := by
  by_cases h1 : -A ≤ x0 + t1 * dx ∧ x0 + t1 * dx ≤ A
  · refine ⟨t1, ht, le_refl _, Or.inl ⟨rfl, h1⟩, ?_⟩
    intro t ht0e htte
    constructor
    · nlinarith [h1.1, hin.1]
    · nlinarith [h1.2, hin.2]
  · rcases lt_or_le (x0 + t1 * dx) (-A) with hlow | hge
    · have hdx : dx < 0 := by nlinarith [hin.1]
      have hdx0 : dx ≠ 0 := ne_of_lt hdx
      refine ⟨(-A - x0) / dx, ?_, ?_, ?_, ?_⟩
      · have hxe : x0 + ((-A - x0) / dx) * dx = -A := by field_simp
        nlinarith [hxe, hin.1]
      · have hxe : x0 + ((-A - x0) / dx) * dx = -A := by field_simp
        nlinarith [hxe]
      · have hxe : x0 + ((-A - x0) / dx) * dx = -A := by field_simp
        refine Or.inr ⟨by nlinarith [hxe], Or.inr hxe, hdx0⟩
      · intro t ht0e htte
        have hxe : x0 + ((-A - x0) / dx) * dx = -A := by field_simp
        constructor
        · nlinarith [hxe]
        · nlinarith [hin.2]
    · have hhigh : A < x0 + t1 * dx := not_le.mp (fun hle => h1 ⟨hge, hle⟩)
      have hdx : 0 < dx := by nlinarith [hin.2]
      have hdx0 : dx ≠ 0 := ne_of_gt hdx
      refine ⟨(A - x0) / dx, ?_, ?_, ?_, ?_⟩
      · have hxe : x0 + ((A - x0) / dx) * dx = A := by field_simp
        nlinarith [hxe, hin.2]
      · have hxe : x0 + ((A - x0) / dx) * dx = A := by field_simp
        nlinarith [hxe]
      · have hxe : x0 + ((A - x0) / dx) * dx = A := by field_simp
        refine Or.inr ⟨by nlinarith [hxe], Or.inl hxe, hdx0⟩
      · intro t ht0e htte
        have hxe : x0 + ((A - x0) / dx) * dx = A := by field_simp
        constructor
        · nlinarith [hin.1]
        · nlinarith [hxe]

theorem point_x (p v : Vec2) (t : ℚ) : (p + t • v).x = p.x + t * v.x := rfl

theorem point_y (p v : Vec2) (t : ℚ) : (p + t • v).y = p.y + t * v.y := rfl

theorem boundary_point_cand {a b : ℚ} (ha : 0 < a) (hb : 0 < b) (L : CLine) (t : ℚ)
    (ht0 : 0 ≤ t) (ht1 : t ≤ 1)
    (hbx : -a ≤ (L.s + t • L.dir).x ∧ (L.s + t • L.dir).x ≤ a)
    (hby : -b ≤ (L.s + t • L.dir).y ∧ (L.s + t • L.dir).y ≤ b)
    (hcross : (((L.s + t • L.dir).y = -b ∨ (L.s + t • L.dir).y = b) ∧ L.dir.y ≠ 0) ∨
              (((L.s + t • L.dir).x = -a ∨ (L.s + t • L.dir).x = a) ∧ L.dir.x ≠ 0)) :
    ∃ i : Fin 4, L.intersect ((rectBox a b).borderEdge i) = some (L.s + t • L.dir) ∧
      onSegment ((rectBox a b).borderEdge i) (L.s + t • L.dir) := by
  have hxex : (L.s + t • L.dir).x = L.s.x + t * (L.e.x - L.s.x) := by
    rw [point_x]
    simp only [CLine.dir, Vec2.sub_def]
  have hyey : (L.s + t • L.dir).y = L.s.y + t * (L.e.y - L.s.y) := by
    rw [point_y]
    simp only [CLine.dir, Vec2.sub_def]
  rcases hcross with ⟨hval | hval, hd⟩ | ⟨hval | hval, hd⟩
  · refine ⟨0, ?_⟩
    have hval2 : L.s.y + t * (L.e.y - L.s.y) = -b := by rw [← hyey]; exact hval
    have hden : cross2 L.dir ((rectBox a b).borderEdge 0).dir ≠ 0 := by
      have heq : cross2 L.dir ((rectBox a b).borderEdge 0).dir = -(2 * a) * L.dir.y := by
        simp only [TextBox.borderEdge, rectBox, CLine.dir, Vec2.sub_def, cross2]
        ring
      rw [heq]
      exact mul_ne_zero (by nlinarith) hd
    have hu0 : 0 ≤ ((L.s + t • L.dir).x + a) / (2 * a) :=
      div_nonneg (by linarith [hbx.1]) (by linarith)
    have hu1 : ((L.s + t • L.dir).x + a) / (2 * a) ≤ 1 :=
      (div_le_one (by linarith)).mpr (by linarith [hbx.2])
    have hp : L.s + t • L.dir = ((rectBox a b).borderEdge 0).s +
        (((L.s + t • L.dir).x + a) / (2 * a)) • ((rectBox a b).borderEdge 0).dir := by
      rw [Vec2.ext_iff]
      simp only [TextBox.borderEdge, rectBox, CLine.dir, Vec2.sub_def, Vec2.add_def,
        Vec2.smul_def]
      constructor
      · field_simp
        ring
      · linear_combination hval2
    have hsome := CLine.intersect_eq_some hden ht0 ht1 hu0 hu1 hp
    exact ⟨by rw [hsome], ⟨_, hu0, hu1, hp⟩⟩
  · refine ⟨2, ?_⟩
    have hval2 : L.s.y + t * (L.e.y - L.s.y) = b := by rw [← hyey]; exact hval
    have hden : cross2 L.dir ((rectBox a b).borderEdge 2).dir ≠ 0 := by
      have heq : cross2 L.dir ((rectBox a b).borderEdge 2).dir = (2 * a) * L.dir.y := by
        simp only [TextBox.borderEdge, rectBox, CLine.dir, Vec2.sub_def, cross2]
        ring
      rw [heq]
      exact mul_ne_zero (by nlinarith) hd
    have hu0 : 0 ≤ (a - (L.s + t • L.dir).x) / (2 * a) :=
      div_nonneg (by linarith [hbx.2]) (by linarith)
    have hu1 : (a - (L.s + t • L.dir).x) / (2 * a) ≤ 1 :=
      (div_le_one (by linarith)).mpr (by linarith [hbx.1])
    have hp : L.s + t • L.dir = ((rectBox a b).borderEdge 2).s +
        ((a - (L.s + t • L.dir).x) / (2 * a)) • ((rectBox a b).borderEdge 2).dir := by
      rw [Vec2.ext_iff]
      simp only [TextBox.borderEdge, rectBox, CLine.dir, Vec2.sub_def, Vec2.add_def,
        Vec2.smul_def]
      constructor
      · field_simp
        ring
      · linear_combination hval2
    have hsome := CLine.intersect_eq_some hden ht0 ht1 hu0 hu1 hp
    exact ⟨by rw [hsome], ⟨_, hu0, hu1, hp⟩⟩
  · refine ⟨3, ?_⟩
    have hval2 : L.s.x + t * (L.e.x - L.s.x) = -a := by rw [← hxex]; exact hval
    have hden : cross2 L.dir ((rectBox a b).borderEdge 3).dir ≠ 0 := by
      have heq : cross2 L.dir ((rectBox a b).borderEdge 3).dir = -(2 * b) * L.dir.x := by
        simp only [TextBox.borderEdge, rectBox, CLine.dir, Vec2.sub_def, cross2]
        ring
      rw [heq]
      exact mul_ne_zero (by nlinarith) hd
    have hu0 : 0 ≤ (b - (L.s + t • L.dir).y) / (2 * b) :=
      div_nonneg (by linarith [hby.2]) (by linarith)
    have hu1 : (b - (L.s + t • L.dir).y) / (2 * b) ≤ 1 :=
      (div_le_one (by linarith)).mpr (by linarith [hby.1])
    have hp : L.s + t • L.dir = ((rectBox a b).borderEdge 3).s +
        ((b - (L.s + t • L.dir).y) / (2 * b)) • ((rectBox a b).borderEdge 3).dir := by
      rw [Vec2.ext_iff]
      simp only [TextBox.borderEdge, rectBox, CLine.dir, Vec2.sub_def, Vec2.add_def,
        Vec2.smul_def]
      constructor
      · linear_combination hval2
      · field_simp
        ring
    have hsome := CLine.intersect_eq_some hden ht0 ht1 hu0 hu1 hp
    exact ⟨by rw [hsome], ⟨_, hu0, hu1, hp⟩⟩
  · refine ⟨1, ?_⟩
    have hval2 : L.s.x + t * (L.e.x - L.s.x) = a := by rw [← hxex]; exact hval
    have hden : cross2 L.dir ((rectBox a b).borderEdge 1).dir ≠ 0 := by
      have heq : cross2 L.dir ((rectBox a b).borderEdge 1).dir = (2 * b) * L.dir.x := by
        simp only [TextBox.borderEdge, rectBox, CLine.dir, Vec2.sub_def, cross2]
        ring
      rw [heq]
      exact mul_ne_zero (by nlinarith) hd
    have hu0 : 0 ≤ ((L.s + t • L.dir).y + b) / (2 * b) :=
      div_nonneg (by linarith [hby.1]) (by linarith)
    have hu1 : ((L.s + t • L.dir).y + b) / (2 * b) ≤ 1 :=
      (div_le_one (by linarith)).mpr (by linarith [hby.2])
    have hp : L.s + t • L.dir = ((rectBox a b).borderEdge 1).s +
        (((L.s + t • L.dir).y + b) / (2 * b)) • ((rectBox a b).borderEdge 1).dir := by
      rw [Vec2.ext_iff]
      simp only [TextBox.borderEdge, rectBox, CLine.dir, Vec2.sub_def, Vec2.add_def,
        Vec2.smul_def]
      constructor
      · linear_combination hval2
      · field_simp
        ring
    have hsome := CLine.intersect_eq_some hden ht0 ht1 hu0 hu1 hp
    exact ⟨by rw [hsome], ⟨_, hu0, hu1, hp⟩⟩

theorem rect_through {a b : ℚ} (ha : 0 < a) (hb : 0 < b) (L : CLine)
    (hout0 : ¬ inRect a b L.s) (hout1 : ¬ inRect a b L.e)
    (hin : ∃ t : ℚ, 0 ≤ t ∧ t ≤ 1 ∧ strictInRect a b (L.s + t • L.dir)) :
    ∃ p q : Vec2, ∃ i j : Fin 4, p ≠ q ∧ i ≠ j ∧
      L.intersect ((rectBox a b).borderEdge i) = some p ∧
      L.intersect ((rectBox a b).borderEdge j) = some q ∧
      onSegment ((rectBox a b).borderEdge i) p ∧
      onSegment ((rectBox a b).borderEdge j) q := by
  obtain ⟨ts, hts0, hts1, hstrict⟩ := hin
  obtain ⟨hsx1, hsx2, hsy1, hsy2⟩ := hstrict
  have hx1 : -a < L.s.x + ts * L.dir.x := hsx1
  have hx2 : L.s.x + ts * L.dir.x < a := hsx2
  have hy1 : -b < L.s.y + ts * L.dir.y := hsy1
  have hy2 : L.s.y + ts * L.dir.y < b := hsy2
  have hdxe : L.dir.x = L.e.x - L.s.x := rfl
  have hdye : L.dir.y = L.e.y - L.s.y := rfl
  have hts0p : 0 < ts := by
    rcases lt_or_eq_of_le hts0 with h | h
    · exact h
    · exfalso
      apply hout0
      rw [← h] at hx1 hx2 hy1 hy2
      exact ⟨by linarith, by linarith, by linarith, by linarith⟩
  have hts1p : ts < 1 := by
    rcases lt_or_eq_of_le hts1 with h | h
    · exact h
    · exfalso
      apply hout1
      rw [h] at hx1 hx2 hy1 hy2
      rw [hdxe] at hx1 hx2
      rw [hdye] at hy1 hy2
      exact ⟨by linarith, by linarith, by linarith, by linarith⟩
  obtain ⟨ex, hex0, hexlt, hexcase, hexprop⟩ := slab_enter ha hts0p ⟨hx1, hx2⟩
  obtain ⟨ey, hey0, heylt, heycase, heyprop⟩ := slab_enter hb hts0p ⟨hy1, hy2⟩
  have hs1_lt : max ex ey < ts := max_lt hexlt heylt
  have hs1_0 : 0 ≤ max ex ey := le_trans hex0 (le_max_left _ _)
  have hbx1 := hexprop (max ex ey) (le_max_left _ _) (le_of_lt hs1_lt)
  have hby1 := heyprop (max ex ey) (le_max_right _ _) (le_of_lt hs1_lt)
  have hs1pos : 0 < max ex ey := by
    rcases hexcase with ⟨hex_eq, hex_in⟩ | ⟨hexgt, _, _⟩
    · rcases heycase with ⟨hey_eq, hey_in⟩ | ⟨heygt, _, _⟩
      · exfalso
        apply hout0
        exact ⟨by linarith [hex_in.1], by linarith [hex_in.2], by linarith [hey_in.1],
          by linarith [hey_in.2]⟩
      · exact lt_of_lt_of_le heygt (le_max_right _ _)
    · exact lt_of_lt_of_le hexgt (le_max_left _ _)
  have hcross1 : (((L.s + (max ex ey) • L.dir).y = -b ∨ (L.s + (max ex ey) • L.dir).y = b) ∧
        L.dir.y ≠ 0) ∨
      (((L.s + (max ex ey) • L.dir).x = -a ∨ (L.s + (max ex ey) • L.dir).x = a) ∧
        L.dir.x ≠ 0) := by
    rcases le_total ex ey with hle | hle
    · have hs1eq : max ex ey = ey := max_eq_right hle
      rcases heycase with ⟨hey_eq, _⟩ | ⟨heygt, hval, hdy⟩
      · exfalso
        rw [hs1eq, hey_eq] at hs1pos
        exact lt_irrefl _ hs1pos
      · left
        refine ⟨?_, hdy⟩
        have hy : (L.s + (max ex ey) • L.dir).y = L.s.y + ey * L.dir.y := by
          rw [point_y, hs1eq]
        rcases hval with hv | hv
        · right
          rw [hy]
          exact hv
        · left
          rw [hy]
          exact hv
    · have hs1eq : max ex ey = ex := max_eq_left hle
      rcases hexcase with ⟨hex_eq, _⟩ | ⟨hexgt, hval, hdx⟩
      · exfalso
        rw [hs1eq, hex_eq] at hs1pos
        exact lt_irrefl _ hs1pos
      · right
        refine ⟨?_, hdx⟩
        have hx : (L.s + (max ex ey) • L.dir).x = L.s.x + ex * L.dir.x := by
          rw [point_x, hs1eq]
        rcases hval with hv | hv
        · right
          rw [hx]
          exact hv
        · left
          rw [hx]
          exact hv
  obtain ⟨i, hi_some, hi_seg⟩ := boundary_point_cand ha hb L (max ex ey) hs1_0
    (le_trans (le_of_lt hs1_lt) hts1) hbx1 hby1 hcross1
  obtain ⟨fx, hfx_gt, hfx_le, hfxcase, hfxprop⟩ := slab_exit ha hts1p ⟨hx1, hx2⟩
  obtain ⟨fy, hfy_gt, hfy_le, hfycase, hfyprop⟩ := slab_exit hb hts1p ⟨hy1, hy2⟩
  have hs2_gt : ts < min fx fy := lt_min hfx_gt hfy_gt
  have hs2_le : min fx fy ≤ 1 := le_trans (min_le_left _ _) hfx_le
  have hbx2 := hfxprop (min fx fy) (le_of_lt hs2_gt) (min_le_left _ _)
  have hby2 := hfyprop (min fx fy) (le_of_lt hs2_gt) (min_le_right _ _)
  have hs2lt1 : min fx fy < 1 := by
    rcases hfxcase with ⟨hfx_eq, hfx_in⟩ | ⟨hfxlt, _, _⟩
    · rcases hfycase with ⟨hfy_eq, hfy_in⟩ | ⟨hfylt, _, _⟩
      · exfalso
        apply hout1
        rw [hdxe] at hfx_in
        rw [hdye] at hfy_in
        exact ⟨by linarith [hfx_in.1], by linarith [hfx_in.2], by linarith [hfy_in.1],
          by linarith [hfy_in.2]⟩
      · exact lt_of_le_of_lt (min_le_right _ _) hfylt
    · exact lt_of_le_of_lt (min_le_left _ _) hfxlt
  have hcross2 : (((L.s + (min fx fy) • L.dir).y = -b ∨ (L.s + (min fx fy) • L.dir).y = b) ∧
        L.dir.y ≠ 0) ∨
      (((L.s + (min fx fy) • L.dir).x = -a ∨ (L.s + (min fx fy) • L.dir).x = a) ∧
        L.dir.x ≠ 0) := by
    rcases le_total fx fy with hle | hle
    · have hs2eq : min fx fy = fx := min_eq_left hle
      rcases hfxcase with ⟨hfx_eq, _⟩ | ⟨hfxlt, hval, hdx⟩
      · exfalso
        rw [hs2eq, hfx_eq] at hs2lt1
        exact lt_irrefl _ hs2lt1
      · right
        refine ⟨?_, hdx⟩
        have hx : (L.s + (min fx fy) • L.dir).x = L.s.x + fx * L.dir.x := by
          rw [point_x, hs2eq]
        rcases hval with hv | hv
        · right
          rw [hx]
          exact hv
        · left
          rw [hx]
          exact hv
    · have hs2eq : min fx fy = fy := min_eq_right hle
      rcases hfycase with ⟨hfy_eq, _⟩ | ⟨hfylt, hval, hdy⟩
      · exfalso
        rw [hs2eq, hfy_eq] at hs2lt1
        exact lt_irrefl _ hs2lt1
      · left
        refine ⟨?_, hdy⟩
        have hy : (L.s + (min fx fy) • L.dir).y = L.s.y + fy * L.dir.y := by
          rw [point_y, hs2eq]
        rcases hval with hv | hv
        · right
          rw [hy]
          exact hv
        · left
          rw [hy]
          exact hv
  obtain ⟨j, hj_some, hj_seg⟩ := boundary_point_cand ha hb L (min fx fy)
    (le_trans hts0 (le_of_lt hs2_gt)) hs2_le hbx2 hby2 hcross2
  have hdirne : L.dir.x ≠ 0 ∨ L.dir.y ≠ 0 := by
    rcases hcross1 with ⟨_, hdy⟩ | ⟨_, hdx⟩
    · exact Or.inr hdy
    · exact Or.inl hdx
  have hs1s2 : max ex ey < min fx fy := lt_trans hs1_lt hs2_gt
  have hpq : (L.s + (max ex ey) • L.dir) ≠ (L.s + (min fx fy) • L.dir) := by
    intro hEq
    rw [Vec2.ext_iff] at hEq
    have hEx : L.s.x + (max ex ey) * L.dir.x = L.s.x + (min fx fy) * L.dir.x := hEq.1
    have hEy : L.s.y + (max ex ey) * L.dir.y = L.s.y + (min fx fy) * L.dir.y := hEq.2
    rcases hdirne with hdx | hdy
    · have : (max ex ey) * L.dir.x = (min fx fy) * L.dir.x := by linarith
      have := mul_right_cancel₀ hdx this
      linarith
    · have : (max ex ey) * L.dir.y = (min fx fy) * L.dir.y := by linarith
      have := mul_right_cancel₀ hdy this
      linarith
  have hij : i ≠ j := by
    intro hEq
    subst hEq
    exact hpq (two_lines_unique_point (CLine.intersect_spec hi_some).1 ⟨max ex ey, rfl⟩
      (onLine_of_onSegment hi_seg) ⟨min fx fy, rfl⟩ (onLine_of_onSegment hj_seg))
  exact ⟨_, _, i, j, hpq, hij, hi_some, hj_some, hi_seg, hj_seg⟩

theorem onSegment_of_toLocal {c u : Vec2} (hu : u.x ^ 2 + u.y ^ 2 = 1) {E : CLine}
    {p : Vec2} (h : onSegment (lineMap (toLocal c u) E) (toLocal c u p)) :
    onSegment E p := by
  obtain ⟨t, h0, h1, heq⟩ := h
  refine ⟨t, h0, h1, ?_⟩
  apply toLocal_injective hu
  rw [heq, toLocal_add_smul, lineMap_toLocal_dir]
  rfl

theorem toLocal_point (c u : Vec2) (l : CLine) (t : ℚ) :
    toLocal c u (l.s + t • l.dir) =
      (lineMap (toLocal c u) l).s + t • (lineMap (toLocal c u) l).dir := by
  rw [toLocal_add_smul, lineMap_toLocal_dir]
  rfl

/-- C6: TextBox.intersect returns a strictly ascending (hence
deduplicated) list of at most two points under the total lexicographic
order; a line that stays outside the closed region of the box yields the
empty list; a line whose endpoints lie outside the closed region but
which passes through the open region yields exactly two points, each
lying on a distinct border edge.  The angle is embedded by a unit
direction vector and the box has positive extents. -/
theorem C6_textbox_intersect (c : Vec2) (w h gap : ℚ) (u : Vec2) (l : CLine)
    (hu : u.x ^ 2 + u.y ^ 2 = 1) (ha : 0 < w / 2 + gap) (hb : 0 < h / 2 + gap) :
    ((TextBox.make c w h u gap).intersect l).Pairwise vecLt ∧
    ((TextBox.make c w h u gap).intersect l).Nodup ∧
    ((TextBox.make c w h u gap).intersect l).length ≤ 2 ∧
    ((∀ t : ℚ, 0 ≤ t → t ≤ 1 → ¬ inTextBoxRegion c w h u gap (l.s + t • l.dir)) →
      (TextBox.make c w h u gap).intersect l = []) ∧
    (¬ inTextBoxRegion c w h u gap l.s → ¬ inTextBoxRegion c w h u gap l.e →
      (∃ t : ℚ, 0 ≤ t ∧ t ≤ 1 ∧ strictlyInTextBoxRegion c w h u gap (l.s + t • l.dir)) →
      ((TextBox.make c w h u gap).intersect l).length = 2 ∧
      ∃ p q : Vec2, (TextBox.make c w h u gap).intersect l = [p, q] ∧
        ∃ i j : Fin 4, i ≠ j ∧
          onSegment ((TextBox.make c w h u gap).borderEdge i) p ∧
          onSegment ((TextBox.make c w h u gap).borderEdge j) q) := by
  have hpw : ((TextBox.make c w h u gap).intersect l).Pairwise vecLt :=
    pairwise_sortedDedup _
  have hlen2 : ((TextBox.make c w h u gap).intersect l).length ≤ 2 := by
    rw [intersect_length_toLocal hu]
    exact rect_intersect_length_le_two ha hb _
  refine ⟨hpw, nodup_of_pairwise_vecLt hpw, hlen2, ?_, ?_⟩
  · intro hout
    have hout2 : ∀ t : ℚ, 0 ≤ t → t ≤ 1 →
        ¬ inRect (w / 2 + gap) (h / 2 + gap)
          ((lineMap (toLocal c u) l).s + t • (lineMap (toLocal c u) l).dir) := by
      intro t ht0 ht1 hcon
      rw [← toLocal_point] at hcon
      exact hout t ht0 ht1 hcon
    have hloc : ((rectBox (w / 2 + gap) (h / 2 + gap)).intersect
        (lineMap (toLocal c u) l)) = [] := rect_intersect_outside ha hb _ hout2
    have hlen0 : ((TextBox.make c w h u gap).intersect l).length = 0 := by
      rw [intersect_length_toLocal hu, hloc]
      rfl
    exact List.length_eq_zero.mp hlen0
  · intro hout0 hout1 hin
    have hout0l : ¬ inRect (w / 2 + gap) (h / 2 + gap) (lineMap (toLocal c u) l).s :=
      hout0
    have hout1l : ¬ inRect (w / 2 + gap) (h / 2 + gap) (lineMap (toLocal c u) l).e :=
      hout1
    have hinl : ∃ t : ℚ, 0 ≤ t ∧ t ≤ 1 ∧
        strictInRect (w / 2 + gap) (h / 2 + gap)
          ((lineMap (toLocal c u) l).s + t • (lineMap (toLocal c u) l).dir) := by
      obtain ⟨t, ht0, ht1, hs⟩ := hin
      refine ⟨t, ht0, ht1, ?_⟩
      rw [← toLocal_point]
      exact hs
    obtain ⟨pl, ql, i, j, hplql, hij, hil, hjl, hisegl, hjsegl⟩ :=
      rect_through ha hb (lineMap (toLocal c u) l) hout0l hout1l hinl
    rw [cand_map_toLocal hu w h gap l i, Option.map_eq_some'] at hil
    rw [cand_map_toLocal hu w h gap l j, Option.map_eq_some'] at hjl
    obtain ⟨pw, hpw_some, hpw_eq⟩ := hil
    obtain ⟨qw, hqw_some, hqw_eq⟩ := hjl
    have hpmem : pw ∈ (TextBox.make c w h u gap).intersect l :=
      mem_textbox_intersect.mpr ⟨i, hpw_some⟩
    have hqmem : qw ∈ (TextBox.make c w h u gap).intersect l :=
      mem_textbox_intersect.mpr ⟨j, hqw_some⟩
    have hne : pw ≠ qw := by
      intro hEq
      apply hplql
      rw [← hpw_eq, ← hqw_eq, hEq]
    have hlen : ((TextBox.make c w h u gap).intersect l).length = 2 :=
      le_antisymm hlen2 (two_le_length_of_two_mem hpmem hqmem hne)
    refine ⟨hlen, ?_⟩
    have hpseg : onSegment ((TextBox.make c w h u gap).borderEdge i) pw := by
      apply onSegment_of_toLocal hu
      rw [make_borderEdge_toLocal hu w h gap i, hpw_eq]
      exact hisegl
    have hqseg : onSegment ((TextBox.make c w h u gap).borderEdge j) qw := by
      apply onSegment_of_toLocal hu
      rw [make_borderEdge_toLocal hu w h gap j, hqw_eq]
      exact hjsegl
    obtain ⟨A, B, hAB⟩ := eq_pair_of_length_two hlen
    have hpmem2 : pw = A ∨ pw = B := by
      have := hAB ▸ hpmem
      simpa using this
    have hqmem2 : qw = A ∨ qw = B := by
      have := hAB ▸ hqmem
      simpa using this
    rcases hpmem2 with hpA | hpB <;> rcases hqmem2 with hqA | hqB
    · exact absurd (hpA.trans hqA.symm) hne
    · exact ⟨A, B, hAB, i, j, hij, hpA ▸ hpseg, hqB ▸ hqseg⟩
    · exact ⟨A, B, hAB, j, i, Ne.symm hij, hqA ▸ hqseg, hpB ▸ hpseg⟩
    · exact absurd (hpB.trans hqB.symm) hne

/-- C6 witness: the box of width 2 and height 2 centered at (5,0) with
angle 0 and no gap, against the horizontal line from (0,0) to (10,0). -/
theorem C6_textbox_intersect_witness :
    ((TextBox.make ⟨5, 0⟩ 2 2 ⟨1, 0⟩ 0).intersect ⟨⟨0, 0⟩, ⟨10, 0⟩⟩).Pairwise vecLt ∧
    ((TextBox.make ⟨5, 0⟩ 2 2 ⟨1, 0⟩ 0).intersect ⟨⟨0, 0⟩, ⟨10, 0⟩⟩).Nodup ∧
    ((TextBox.make ⟨5, 0⟩ 2 2 ⟨1, 0⟩ 0).intersect ⟨⟨0, 0⟩, ⟨10, 0⟩⟩).length ≤ 2 ∧
    ((∀ t : ℚ, 0 ≤ t → t ≤ 1 →
        ¬ inTextBoxRegion ⟨5, 0⟩ 2 2 ⟨1, 0⟩ 0
          ((⟨⟨0, 0⟩, ⟨10, 0⟩⟩ : CLine).s + t • (⟨⟨0, 0⟩, ⟨10, 0⟩⟩ : CLine).dir)) →
      (TextBox.make ⟨5, 0⟩ 2 2 ⟨1, 0⟩ 0).intersect ⟨⟨0, 0⟩, ⟨10, 0⟩⟩ = []) ∧
    (¬ inTextBoxRegion ⟨5, 0⟩ 2 2 ⟨1, 0⟩ 0 (⟨⟨0, 0⟩, ⟨10, 0⟩⟩ : CLine).s →
      ¬ inTextBoxRegion ⟨5, 0⟩ 2 2 ⟨1, 0⟩ 0 (⟨⟨0, 0⟩, ⟨10, 0⟩⟩ : CLine).e →
      (∃ t : ℚ, 0 ≤ t ∧ t ≤ 1 ∧
        strictlyInTextBoxRegion ⟨5, 0⟩ 2 2 ⟨1, 0⟩ 0
          ((⟨⟨0, 0⟩, ⟨10, 0⟩⟩ : CLine).s + t • (⟨⟨0, 0⟩, ⟨10, 0⟩⟩ : CLine).dir)) →
      ((TextBox.make ⟨5, 0⟩ 2 2 ⟨1, 0⟩ 0).intersect ⟨⟨0, 0⟩, ⟨10, 0⟩⟩).length = 2 ∧
      ∃ p q : Vec2,
        (TextBox.make ⟨5, 0⟩ 2 2 ⟨1, 0⟩ 0).intersect ⟨⟨0, 0⟩, ⟨10, 0⟩⟩ = [p, q] ∧
        ∃ i j : Fin 4, i ≠ j ∧
          onSegment ((TextBox.make ⟨5, 0⟩ 2 2 ⟨1, 0⟩ 0).borderEdge i) p ∧
          onSegment ((TextBox.make ⟨5, 0⟩ 2 2 ⟨1, 0⟩ 0).borderEdge j) q) :=
  C6_textbox_intersect ⟨5, 0⟩ 2 2 0 ⟨1, 0⟩ ⟨⟨0, 0⟩, ⟨10, 0⟩⟩
    (by show (1 : ℚ) ^ 2 + (0 : ℚ) ^ 2 = 1; norm_num)
    (by norm_num) (by norm_num)

end Ezdxf
